import Mathlib

/-!
# The statsd reporter of go-metrics (`statsd.go`)

A shallow embedding of `statsd.go`: the snapshot formatter inside `Statsd`, the
bounded metric queue with its non-blocking `pushMetric`, and the label-driven
loop of `flushMetrics` (CONNECT / streaming loop / WAIT / QUIT), followed by the
properties proved about them.

Conventions of the embedding.
* A Go `string` is a Lean `String`; `len(s)` is the number of bytes of its
  UTF-8 encoding (`String.utf8ByteSize`).  A `bytes.Buffer` is the string of the
  bytes written to it so far.
* A Go `int` is a Lean `Int`, a `float64` is a Lean `Float` (IEEE binary64).
* The decimal text of a `float64` is produced by Go's `strconv`; it is not
  computed here but taken as a parameter (`FloatText`).
-/

namespace Statsd

/-! ## Go primitives used by the source -/

/-- Go's `len(s)` for a string: the number of bytes. -/
def len (s : String) : Nat := s.utf8ByteSize

/-- The text `strconv` produces for a `float64`: `verbF` under the verb `%f`,
`verbV` under the verb `%v`. -/
structure FloatText where
  verbF : Float → String
  verbV : Float → String

/-- An operand of `fmt.Sprintf`, tagged with its dynamic type. -/
inductive Arg where
  | str (s : String)
  | int (i : Int)
  | float64 (x : Float)

/-- The name `reflect.TypeOf(arg).String()` prints for an operand. -/
def Arg.typeName : Arg → String
  | .str _ => "string"
  | .int _ => "int"
  | .float64 _ => "float64"

/-- The operand printed under the verb `%v`. -/
def Arg.verbV (φ : FloatText) : Arg → String
  | .str s => s
  | .int i => toString i
  | .float64 x => φ.verbV x

/-- What `fmt` prints when the verb does not suit the operand's type:
`%!verb(type=value)`. -/
def badVerb (φ : FloatText) (verb : Char) (a : Arg) : String :=
  "%!" ++ String.singleton verb ++ "(" ++ a.typeName ++ "=" ++ a.verbV φ ++ ")"

/-- One operand printed under one verb.  Covers the verbs `s`, `d`, `f` and `v`
without flags, the only ones the source uses: `%s` prints a string, `%d` an
integer in decimal, `%f` a float; a verb applied to an operand of another type
is a bad verb. -/
def formatArg (φ : FloatText) (verb : Char) (a : Arg) : String :=
  if verb = 'v' then a.verbV φ
  else match a with
    | .str s => if verb = 's' then s else badVerb φ verb a
    | .int i => if verb = 'd' then toString i else badVerb φ verb a
    | .float64 x => if verb = 'f' then φ.verbF x else badVerb φ verb a

/-- The tail `fmt` appends for operands the format did not consume. -/
def extraArgs (φ : FloatText) (args : List Arg) : String :=
  "%!(EXTRA " ++ ", ".intercalate (args.map fun a => a.typeName ++ "=" ++ a.verbV φ) ++ ")"

/-- The scan of `fmt.Sprintf` over the characters of the format. -/
def sprintfAux (φ : FloatText) : List Char → List Arg → String
  | [], [] => ""
  | [], a :: args => extraArgs φ (a :: args)
  | c :: rest, args =>
    if c = '%' then
      match rest, args with
      | [], _ => "%!(NOVERB)"
      | verb :: rest', [] =>
        if verb = '%' then "%" ++ sprintfAux φ rest' []
        else "%!" ++ String.singleton verb ++ "(MISSING)" ++ sprintfAux φ rest' []
      | verb :: rest', a :: args' =>
        if verb = '%' then "%" ++ sprintfAux φ rest' (a :: args')
        else formatArg φ verb a ++ sprintfAux φ rest' args'
    else String.singleton c ++ sprintfAux φ rest args

/-- Go's `fmt.Sprintf(format, args...)`, for formats built from plain text, `%%`
and the verbs `%s`, `%d`, `%f`, `%v` without flags, width or precision. -/
def Sprintf (φ : FloatText) (format : String) (args : List Arg) : String :=
  sprintfAux φ format.data args

/-! ## The snapshot formatter (the callback of `r.Each` in `Statsd`) -/

/-- What the source reads from a Histogram: `ss := metric.Snapshot()`, taken
once.  Each field is the value of the accessor expression of the source:
`Count` is `int(ss.Count())`, `Min` is `float64(ss.Min())`, and so on;
`Percentiles` is the method `ss.Percentiles`. -/
structure HistogramSnapshot where
  Count : Int
  Min : Float
  Max : Float
  Mean : Float
  StdDev : Float
  Percentiles : List Float → List Float

/-- What the source reads from a Meter snapshot. -/
structure MeterSnapshot where
  Count : Int
  Rate1 : Float
  Rate5 : Float
  Rate15 : Float
  RateMean : Float

/-- What the source reads from a Timer snapshot. -/
structure TimerSnapshot where
  Count : Int
  Min : Float
  Max : Float
  Mean : Float
  StdDev : Float
  Percentiles : List Float → List Float
  Rate1 : Float
  Rate5 : Float
  Rate15 : Float
  RateMean : Float

/-- The registry value handed to the callback, by the case of the type switch
that takes it.  `counter c` carries `int(metric.Count())`, `gauge v` and
`gaugeFloat64 v` carry `float64(metric.Value())`, the three snapshot kinds carry
the result of the one call `metric.Snapshot()`; `other` is a value no case
matches. -/
inductive Metric where
  | counter (count : Int)
  | gauge (value : Float)
  | gaugeFloat64 (value : Float)
  | histogram (ss : HistogramSnapshot)
  | meter (ss : MeterSnapshot)
  | timer (ss : TimerSnapshot)
  | other

/-- The quantiles both percentile calls of the source pass:
`[]float64{0.5, 0.75, 0.95, 0.99, 0.999}`. -/
def quantiles : List Float := [0.5, 0.75, 0.95, 0.99, 0.999]

/-- The arguments of the successive `sink.pushMetric(fmt.Sprintf(...))` calls the
callback makes for one metric, in call order.  `none` is the run-time panic of
an index `ps[i]` out of range. -/
def metricLines (φ : FloatText) (name : String) : Metric → Option (List String)
  | .counter count => some [Sprintf φ "%s:%d|kv\n" [.str name, .int count]]
  | .gauge value => some [Sprintf φ "%s:%f|kv\n" [.str name, .float64 value]]
  | .gaugeFloat64 value => some [Sprintf φ "%s:%f|kv\n" [.str name, .float64 value]]
  | .histogram ss => do
    let ps := ss.Percentiles quantiles
    let p0 ← ps[0]?
    let p1 ← ps[1]?
    let p2 ← ps[2]?
    let p3 ← ps[3]?
    let p4 ← ps[4]?
    pure [
      Sprintf φ "%s.count:%d|kv\n" [.str name, .int ss.Count],
      Sprintf φ "%s.min:%f|kv\n" [.str name, .float64 ss.Min],
      Sprintf φ "%s.max:%f|kv\n" [.str name, .float64 ss.Max],
      Sprintf φ "%s.mean:%f|kv\n" [.str name, .float64 ss.Mean],
      Sprintf φ "%s.std-dev:%f|kv\n" [.str name, .float64 ss.StdDev],
      Sprintf φ "%s.50-percentile:%f|kv\n" [.str name, .float64 p0],
      Sprintf φ "%s.75-percentile:%f|kv\n" [.str name, .float64 p1],
      Sprintf φ "%s.95-percentile:%f|kv\n" [.str name, .float64 p2],
      Sprintf φ "%s.99-percentile:%f|kv\n" [.str name, .float64 p3],
      Sprintf φ "%s.999-percentile:%f|kv\n" [.str name, .float64 p4]]
  | .meter ss => some [
      Sprintf φ "%s.count:%d|kv\n" [.str name, .int ss.Count],
      Sprintf φ "%s.one-minute:%d|kv\n" [.str name, .float64 ss.Rate1],
      Sprintf φ "%s.five-minute:%d|kv\n" [.str name, .float64 ss.Rate5],
      Sprintf φ "%s.fifteen-minute:%d|kv\n" [.str name, .float64 ss.Rate15],
      Sprintf φ "%s.mean:%d|kv\n" [.str name, .float64 ss.RateMean]]
  | .timer ss => do
    let ps := ss.Percentiles quantiles
    let p0 ← ps[0]?
    let p1 ← ps[1]?
    let p2 ← ps[2]?
    let p3 ← ps[3]?
    let p4 ← ps[4]?
    pure [
      Sprintf φ "%s.count:%d|kv\n" [.str name, .int ss.Count],
      Sprintf φ "%s.min:%f|kv\n" [.str name, .float64 ss.Min],
      Sprintf φ "%s.max:%f|kv\n" [.str name, .float64 ss.Max],
      Sprintf φ "%s.mean:%f|kv\n" [.str name, .float64 ss.Mean],
      Sprintf φ "%s.std-dev:%f|kv\n" [.str name, .float64 ss.StdDev],
      Sprintf φ "%s.50-percentile:%f|kv\n" [.str name, .float64 p0],
      Sprintf φ "%s.75-percentile:%f|kv\n" [.str name, .float64 p1],
      Sprintf φ "%s.95-percentile:%f|kv\n" [.str name, .float64 p2],
      Sprintf φ "%s.99-percentile:%f|kv\n" [.str name, .float64 p3],
      Sprintf φ "%s.999-percentile:%f|kv\n" [.str name, .float64 p4],
      Sprintf φ "%s.one-minute:%d|kv\n" [.str name, .float64 ss.Rate1],
      Sprintf φ "%s.five-minute:%d|kv\n" [.str name, .float64 ss.Rate5],
      Sprintf φ "%s.fifteen-minute:%d|kv\n" [.str name, .float64 ss.Rate15],
      Sprintf φ "%s.mean:%d|kv\n" [.str name, .float64 ss.RateMean]]
  | .other => some []

/-! ## The metric queue and `pushMetric` -/

/-- A buffered Go channel of strings that nobody has closed: the lines it holds,
oldest first, and its capacity. -/
structure Chan where
  items : List String
  cap : Nat

/-- Go's `make(chan string, n)`. -/
def Chan.make (n : Nat) : Chan := ⟨[], n⟩

/-- A send that must not wait: it goes through when the buffer has room and is
refused (`none`) when the send would block. -/
def Chan.trySend (c : Chan) (m : String) : Option Chan :=
  if c.items.length < c.cap then some { c with items := c.items ++ [m] } else none

/-- A receive that must not wait: the oldest line and the rest, or `none` when
the channel is empty (the consumer would block). -/
def Chan.tryRecv (c : Chan) : Option (String × Chan) :=
  match c.items with
  | [] => none
  | m :: rest => some (m, { c with items := rest })

/-- The struct `statsdSink`; `duration` is the cooldown, a `time.Duration`
(a count of nanoseconds). -/
structure statsdSink where
  metricQueue : Chan
  addr : String
  duration : Int

/-- The sink `Statsd(r, d, addr)` builds: a queue of capacity 4096, initially
empty. -/
def newSink (d : Int) (addr : String) : statsdSink :=
  { metricQueue := Chan.make 4096, addr := addr, duration := d }

/-- The method `pushMetric`: a `select` with the send as its one case and an
empty `default`. -/
def pushMetric (s : statsdSink) (m : String) : statsdSink :=
  match s.metricQueue.trySend m with
  | some q => { s with metricQueue := q }
  | none => s

/-- The consumer's receive `<-s.metricQueue`, when a line is available. -/
def dequeue (s : statsdSink) : Option (String × statsdSink) :=
  match s.metricQueue.tryRecv with
  | some (m, q) => some (m, { s with metricQueue := q })
  | none => none

/-- One run of the callback of `r.Each` on one registry entry: every formatted
line is handed to `pushMetric`, in order. -/
def sampleMetric (φ : FloatText) (s : statsdSink) (name : String) (i : Metric) :
    Option statsdSink :=
  (metricLines φ name i).map fun lines => lines.foldl pushMetric s

/-- An operation on the queue: a producer's `pushMetric` or the consumer's
receive. -/
inductive QueueOp where
  | push (m : String)
  | pop

/-- The sink after one queue operation; a receive on an empty queue waits and
leaves the sink as it is. -/
def applyOp (s : statsdSink) : QueueOp → statsdSink
  | .push m => pushMetric s m
  | .pop => match dequeue s with
    | some (_, s') => s'
    | none => s

/-- The sink after a sequence of queue operations. -/
def applyOps (s : statsdSink) (ops : List QueueOp) : statsdSink :=
  ops.foldl applyOp s

/-! ## The consumer loop `flushMetrics` -/

/-- The constant `statsdMaxLen`: the maximum size of a packet, in bytes. -/
def statsdMaxLen : Nat := 1400

/-- Where `flushMetrics` stands when it waits for the outside world:
`CONNECT` in the call `net.Dial` (the buffer has just been created),
`STREAM` in the `select` of the first loop, `WAIT` in the `select` of the loop
after the label `WAIT`, `QUIT` after the label `QUIT` (the function has
returned). -/
inductive Phase where
  | CONNECT
  | STREAM
  | WAIT
  | QUIT
  deriving DecidableEq

/-- The control point of `flushMetrics` together with its local `buf`. -/
structure Batcher where
  phase : Phase
  buf : String
  deriving DecidableEq

/-- What the outside world hands to `flushMetrics` where it waits.
* `dialed ok`: `net.Dial` returns, with `err == nil` exactly when `ok`;
* `metric m wok`: the receive from `s.metricQueue` yields the line `m`; `wok`
  tells whether a `sock.Write` made while handling it succeeds;
* `closed`: the receive from `s.metricQueue` reports the channel closed;
* `tick wok`: the receive from `ticker.C`; `wok` as above;
* `waited`: the receive from `wait`, the cooldown has elapsed. -/
inductive Event where
  | dialed (ok : Bool)
  | metric (m : String) (wok : Bool)
  | closed
  | tick (wok : Bool)
  | waited
  deriving DecidableEq

/-- What `flushMetrics` does to the outside world: a `net.Dial` and its outcome,
a `sock.Write` of a payload and its outcome, a `log.Printf` with its format, the
deferred `ticker.Stop()`.  `close` stands for a `Close` of the socket, which the
source never calls. -/
inductive Effect where
  | dial (ok : Bool)
  | write (payload : String) (ok : Bool)
  | log (format : String)
  | stopTicker
  | close
  deriving DecidableEq

/-- The state in which `flushMetrics` starts: at `CONNECT`, with a new buffer. -/
def Batcher.init : Batcher := ⟨.CONNECT, ""⟩

/-- The freshly connected state: in the first loop with the buffer still empty. -/
def Batcher.fresh : Batcher := ⟨.STREAM, ""⟩

/-- One step of `flushMetrics`: from a control point and the event received
there to the next control point, with the effects performed on the way.  `none`
when the event cannot be received at that control point. -/
def step (s : Batcher) (e : Event) : Option (Batcher × List Effect) :=
  match s.phase, e with
  | .CONNECT, .dialed ok =>
    if ok then some (⟨.STREAM, s.buf⟩, [.dial true])
    else some (⟨.WAIT, s.buf⟩, [.dial false, .log "[ERR] Error connecting to statsd! Err: %s"])
  | .STREAM, .metric m wok =>
    if len m + len s.buf > statsdMaxLen then
      if wok then some (⟨.STREAM, "" ++ m⟩, [.write s.buf true])
      else some (⟨.WAIT, ""⟩, [.write s.buf false, .log "[ERR] Error writing to statsd! Err: %s"])
    else some (⟨.STREAM, s.buf ++ m⟩, [])
  | .STREAM, .closed => some (⟨.QUIT, s.buf⟩, [.stopTicker])
  | .STREAM, .tick wok =>
    if len s.buf = 0 then some (s, [])
    else if wok then some (⟨.STREAM, ""⟩, [.write s.buf true])
    else some (⟨.WAIT, ""⟩, [.write s.buf false, .log "[ERR] Error flushing to statsd! Err: %s"])
  | .WAIT, .metric _ _ => some (s, [])
  | .WAIT, .closed => some (⟨.QUIT, s.buf⟩, [.stopTicker])
  | .WAIT, .waited => some (⟨.CONNECT, ""⟩, [])
  | _, _ => none

/-- The run of `flushMetrics` over a sequence of events: the state reached and
all effects, in order.  `none` when some event cannot be received where the run
stands. -/
def run (s : Batcher) : List Event → Option (Batcher × List Effect)
  | [] => some (s, [])
  | e :: es =>
    match step s e with
    | none => none
    | some (s1, out1) =>
      match run s1 es with
      | none => none
      | some (s2, out2) => some (s2, out1 ++ out2)

/-- The payloads passed to `sock.Write`, in write order. -/
def writes : List Effect → List String
  | [] => []
  | .write p _ :: rest => p :: writes rest
  | _ :: rest => writes rest

/-- The lines received from the queue, in arrival order. -/
def received : List Event → List String
  | [] => []
  | .metric m _ :: rest => m :: received rest
  | _ :: rest => received rest

/-- The concatenation of a list of lines. -/
def concat : List String → String
  | [] => ""
  | l :: ls => l ++ concat ls

/-- What the first loop can receive while the queue stays open: a line or a
tick. -/
inductive Input where
  | line (m : String)
  | tick
  deriving DecidableEq

/-- The event of an input whose socket write, if any, succeeds. -/
def Input.ok : Input → Event
  | .line m => .metric m true
  | .tick => .tick true

/-- The line events of a sequence of lines, each with the outcome a write made
while handling it would have. -/
def lineEvents (ls : List (String × Bool)) : List Event :=
  ls.map fun p => Event.metric p.1 p.2

/-- The number of sockets opened: the calls of `net.Dial` that returned without
error. -/
def socketsOpened : List Effect → Nat
  | [] => 0
  | .dial true :: rest => socketsOpened rest + 1
  | _ :: rest => socketsOpened rest

/-- The number of sockets released: the calls of `Close`. -/
def socketsClosed : List Effect → Nat
  | [] => 0
  | .close :: rest => socketsClosed rest + 1
  | _ :: rest => socketsClosed rest

/-- The number of calls of `sock.Write` that returned an error. -/
def writesFailed : List Effect → Nat
  | [] => 0
  | .write _ false :: rest => writesFailed rest + 1
  | _ :: rest => writesFailed rest

/-- The number of connect attempts: the calls of `net.Dial`. -/
def dials : List Effect → Nat
  | [] => 0
  | .dial _ :: rest => dials rest + 1
  | _ :: rest => dials rest

/-- The bucket key of a wire line: the text before its first `:`. -/
def bucketKey (line : String) : String :=
  String.mk (line.data.takeWhile fun c => c != ':')

/-! ## Sample data for the concrete instances -/

/-- The bytes of a sample line of `n` ASCII characters. -/
def sampleLine (n : Nat) : String := String.mk (List.replicate n 'x')

/-- A rendering of floats to evaluate examples with: Lean's own decimal text of
a double, for both verbs.  No property below depends on the rendering. -/
def sampleFloatText : FloatText := ⟨Float.toString, Float.toString⟩

/-- The Timer of the end-to-end scenario: count 10, min 1.0, max 9.0, mean 5.0,
standard deviation 2.0, percentiles 2, 3, 8, 9, 9 and rates 1, 2, 3, 4. -/
def sampleTimer : TimerSnapshot :=
  { Count := 10, Min := 1.0, Max := 9.0, Mean := 5.0, StdDev := 2.0,
    Percentiles := fun _ => [2, 3, 8, 9, 9],
    Rate1 := 1, Rate5 := 2, Rate15 := 3, RateMean := 4 }

/-- A Histogram with the figures of `sampleTimer`. -/
def sampleHistogram : HistogramSnapshot :=
  { Count := 10, Min := 1.0, Max := 9.0, Mean := 5.0, StdDev := 2.0,
    Percentiles := fun _ => [2, 3, 8, 9, 9] }

/-- A Meter with count 3 and the rates of `sampleTimer`. -/
def sampleMeter : MeterSnapshot :=
  { Count := 3, Rate1 := 1, Rate5 := 2, Rate15 := 3, RateMean := 4 }

/-! ## Auxiliary facts -/

theorem len_append (a b : String) : len (a ++ b) = len a + len b := by
  show String.utf8Len (a.data ++ b.data) = String.utf8Len a.data + String.utf8Len b.data
  exact String.utf8Len_append a.data b.data

theorem len_empty : len "" = 0 := rfl

theorem len_eq_zero_iff (s : String) : len s = 0 ↔ s = "" := by
  constructor
  · intro h
    apply String.ext
    simpa [len, String.utf8ByteSize] using h
  · intro h
    subst h
    rfl

theorem writes_append (a b : List Effect) : writes (a ++ b) = writes a ++ writes b := by
  induction a with
  | nil => rfl
  | cons x xs ih => cases x <;> simp [writes, ih]

theorem run_cons_some {s s1 s2 : Batcher} {e : Event} {es : List Event} {o1 o2 : List Effect}
    (h1 : step s e = some (s1, o1)) (h2 : run s1 es = some (s2, o2)) :
    run s (e :: es) = some (s2, o1 ++ o2) := by
  simp [run, h1, h2]

theorem run_cons_inv {s s2 : Batcher} {e : Event} {es : List Event} {out : List Effect}
    (h : run s (e :: es) = some (s2, out)) :
    ∃ s1 o1 o2, step s e = some (s1, o1) ∧ run s1 es = some (s2, o2) ∧ out = o1 ++ o2 := by
  unfold run at h
  cases h1 : step s e with
  | none => simp [h1] at h
  | some r1 =>
    obtain ⟨s1, o1⟩ := r1
    cases h2 : run s1 es with
    | none => simp [h1, h2] at h
    | some r2 =>
      obtain ⟨s2', o2⟩ := r2
      simp [h1, h2] at h
      obtain ⟨rfl, rfl⟩ := h
      exact ⟨s1, o1, o2, rfl, h2, rfl⟩

theorem step_line_fits (b m : String) (wok : Bool) (h : len m + len b ≤ statsdMaxLen) :
    step ⟨.STREAM, b⟩ (.metric m wok) = some (⟨.STREAM, b ++ m⟩, []) := by
  simp only [step]
  rw [if_neg (by omega)]

theorem step_line_overflow_ok (b m : String) (h : len m + len b > statsdMaxLen) :
    step ⟨.STREAM, b⟩ (.metric m true) = some (⟨.STREAM, m⟩, [.write b true]) := by
  simp only [step]
  rw [if_pos h]
  simp

theorem step_line_overflow_fail (b m : String) (h : len m + len b > statsdMaxLen) :
    step ⟨.STREAM, b⟩ (.metric m false) =
      some (⟨.WAIT, ""⟩, [.write b false, .log "[ERR] Error writing to statsd! Err: %s"]) := by
  simp only [step]
  rw [if_pos h]
  simp

theorem step_tick_empty (b : String) (wok : Bool) (h : len b = 0) :
    step ⟨.STREAM, b⟩ (.tick wok) = some (⟨.STREAM, b⟩, []) := by
  simp only [step]
  rw [if_pos h]

theorem step_tick_ok (b : String) (h : len b ≠ 0) :
    step ⟨.STREAM, b⟩ (.tick true) = some (⟨.STREAM, ""⟩, [.write b true]) := by
  simp only [step]
  rw [if_neg h]
  simp

theorem step_tick_fail (b : String) (h : len b ≠ 0) :
    step ⟨.STREAM, b⟩ (.tick false) =
      some (⟨.WAIT, ""⟩, [.write b false, .log "[ERR] Error flushing to statsd! Err: %s"]) := by
  simp only [step]
  rw [if_neg h]
  simp

/-- One step keeps the buffer within the packet limit and writes only payloads
within it, when the buffer was within it and the line received, if any, is. -/
theorem step_bounded {s s1 : Batcher} {e : Event} {o1 : List Effect}
    (hb : len s.buf ≤ statsdMaxLen)
    (he : ∀ m wok, e = .metric m wok → len m ≤ statsdMaxLen)
    (h : step s e = some (s1, o1)) :
    len s1.buf ≤ statsdMaxLen ∧ ∀ p ∈ writes o1, len p ≤ statsdMaxLen := by
  obtain ⟨ph, b⟩ := s
  cases ph <;> cases e <;> simp only [step] at h <;> (try split_ifs at h) <;>
    simp only [Option.some.injEq, Prod.mk.injEq, reduceCtorEq] at h <;>
    obtain ⟨rfl, rfl⟩ := h <;>
    simp only [writes, List.mem_cons, List.mem_nil_iff, or_false, forall_eq, false_implies,
      implies_true, and_true, len_empty, String.empty_append, len_append, Nat.zero_le] <;>
    first
      | trivial
      | exact hb
      | exact he _ _ rfl
      | exact ⟨he _ _ rfl, hb⟩
      | (simp only [gt_iff_lt, not_lt] at *; omega)

/-- A run keeps the buffer within the packet limit and writes only payloads
within it, from any state whose buffer is within it, when every line is. -/
theorem run_bounded : ∀ (evs : List Event) (s s2 : Batcher) (out : List Effect),
    len s.buf ≤ statsdMaxLen →
    (∀ m wok, Event.metric m wok ∈ evs → len m ≤ statsdMaxLen) →
    run s evs = some (s2, out) →
    len s2.buf ≤ statsdMaxLen ∧ ∀ p ∈ writes out, len p ≤ statsdMaxLen
  | [], s, s2, out, hb, _, h => by
    simp only [run, Option.some.injEq, Prod.mk.injEq] at h
    obtain ⟨rfl, rfl⟩ := h
    exact ⟨hb, by simp [writes]⟩
  | e :: es, s, s2, out, hb, hl, h => by
    obtain ⟨s1, o1, o2, h1, h2, rfl⟩ := run_cons_inv h
    have hs := step_bounded hb (fun m wok hm => hl m wok (by simp [hm])) h1
    have hr := run_bounded es s1 s2 o2 hs.1
      (fun m wok hm => hl m wok (List.mem_cons_of_mem _ hm)) h2
    refine ⟨hr.1, ?_⟩
    intro p hp
    rw [writes_append, List.mem_append] at hp
    cases hp with
    | inl hp => exact hs.2 p hp
    | inr hp => exact hr.2 p hp

/-- C1: from the freshly connected state, for every sequence of events in which
each line received is at most 1400 bytes long (the ticks, the write outcomes and
every other event being arbitrary), after every number `k` of steps the buffer
holds at most 1400 bytes, and every payload passed to the socket write up to
then is at most 1400 bytes long. -/
theorem packets_within_limit (evs : List Event)
    (hlines : ∀ m wok, Event.metric m wok ∈ evs → len m ≤ statsdMaxLen)
    (k : Nat) (s : Batcher) (out : List Effect)
    (hrun : run Batcher.fresh (evs.take k) = some (s, out)) :
    statsdMaxLen = 1400 ∧ len s.buf ≤ 1400 ∧ ∀ p ∈ writes out, len p ≤ 1400 :=
  ⟨rfl, run_bounded (evs.take k) Batcher.fresh s out (Nat.zero_le _)
    (fun m wok hm => hlines m wok (List.mem_of_mem_take hm)) hrun⟩

theorem len_sampleLine (n : Nat) : len (sampleLine n) = n := by
  induction n with
  | zero => rfl
  | succ n ih =>
    have h : sampleLine (n + 1) = "x" ++ sampleLine n := rfl
    rw [h, len_append, ih]
    show 1 + n = n + 1
    omega

/-- C1 at a concrete run: two lines of 800 bytes, a tick, a third line. -/
theorem packets_within_limit_witness :
    run Batcher.fresh ([.metric (sampleLine 800) true, .metric (sampleLine 800) true,
        .tick true, .metric "a:1|kv\n" true].take 4)
      = some (⟨.STREAM, "a:1|kv\n"⟩, [.write (sampleLine 800) true, .write (sampleLine 800) true]) ∧
    (statsdMaxLen = 1400 ∧ len (Batcher.mk .STREAM "a:1|kv\n").buf ≤ 1400 ∧
      ∀ p ∈ writes [.write (sampleLine 800) true, .write (sampleLine 800) true], len p ≤ 1400) :=
  have hrun : run Batcher.fresh ([.metric (sampleLine 800) true, .metric (sampleLine 800) true,
        .tick true, .metric "a:1|kv\n" true].take 4)
      = some (⟨.STREAM, "a:1|kv\n"⟩, [.write (sampleLine 800) true, .write (sampleLine 800) true]) := by
    have e1 := step_line_fits "" (sampleLine 800) true
      (by rw [len_sampleLine, len_empty]; decide)
    have e2 := step_line_overflow_ok ("" ++ sampleLine 800) (sampleLine 800)
      (by rw [len_append, len_sampleLine, len_empty]; decide)
    have e3 := step_tick_ok (sampleLine 800) (by rw [len_sampleLine]; decide)
    have e4 := step_line_fits "" "a:1|kv\n" true (by decide)
    rw [String.empty_append] at e2
    exact run_cons_some e1 (run_cons_some e2 (run_cons_some e3 (run_cons_some e4 rfl)))
  ⟨hrun, packets_within_limit _ (by
      intro m wok hm
      simp only [List.mem_cons, Event.metric.injEq, List.mem_nil_iff, or_false, reduceCtorEq,
        false_or] at hm
      rcases hm with ⟨rfl, _⟩ | ⟨rfl, _⟩ | ⟨rfl, _⟩
      · rw [len_sampleLine]; decide
      · rw [len_sampleLine]; decide
      · decide) 4 _ _ hrun⟩

theorem concat_append (xs ys : List String) : concat (xs ++ ys) = concat xs ++ concat ys := by
  induction xs with
  | nil => simp [concat]
  | cons x xs ih => simp [concat, ih, String.append_assoc]

theorem concat_singleton (m : String) : concat [m] = m := by
  simp [concat]

theorem received_map_ok_cons_line (m : String) (tl : List Input) :
    received ((Input.line m :: tl).map Input.ok) = m :: received (tl.map Input.ok) := rfl

theorem received_map_ok_cons_tick (tl : List Input) :
    received ((Input.tick :: tl).map Input.ok) = received (tl.map Input.ok) := rfl

/-- With every write succeeding, a run of the first loop from a buffer holding
the pending lines `pend` cuts `pend` followed by the lines received into
groups of consecutive lines: one payload per group, the rest in the buffer. -/
theorem run_ok_partition : ∀ (ins : List Input) (b : String) (pend : List String),
    b = concat pend →
    ∃ (s : Batcher) (out : List Effect) (groups : List (List String)) (rest : List String),
      run ⟨.STREAM, b⟩ (ins.map Input.ok) = some (s, out) ∧
      s.phase = .STREAM ∧
      pend ++ received (ins.map Input.ok) = groups.flatten ++ rest ∧
      out = groups.map (fun g => Effect.write (concat g) true) ∧
      s.buf = concat rest
  | [], b, pend, hb => ⟨⟨.STREAM, b⟩, [], [], pend, rfl, rfl, by simp [received], rfl, hb⟩
  | .line m :: tl, b, pend, hb => by
    by_cases h : len m + len b > statsdMaxLen
    · obtain ⟨s, out, groups, rest, hrun, hph, hsplit, hout, hbuf⟩ :=
        run_ok_partition tl m [m] (concat_singleton m).symm
      refine ⟨s, .write b true :: out, pend :: groups, rest, ?_, hph, ?_, ?_, hbuf⟩
      · exact run_cons_some (step_line_overflow_ok b m h) hrun
      · rw [received_map_ok_cons_line, List.flatten_cons, List.append_assoc, ← hsplit]
        rfl
      · rw [hout, hb]
        rfl
    · obtain ⟨s, out, groups, rest, hrun, hph, hsplit, hout, hbuf⟩ :=
        run_ok_partition tl (b ++ m) (pend ++ [m])
          (by rw [concat_append, concat_singleton, hb])
      refine ⟨s, out, groups, rest, ?_, hph, ?_, hout, hbuf⟩
      · exact run_cons_some (step_line_fits b m true (by omega)) hrun
      · rw [received_map_ok_cons_line, ← hsplit]
        simp
  | .tick :: tl, b, pend, hb => by
    by_cases h : len b = 0
    · obtain ⟨s, out, groups, rest, hrun, hph, hsplit, hout, hbuf⟩ :=
        run_ok_partition tl b pend hb
      refine ⟨s, out, groups, rest, ?_, hph, ?_, hout, hbuf⟩
      · exact run_cons_some (step_tick_empty b true h) hrun
      · rw [received_map_ok_cons_tick, hsplit]
    · obtain ⟨s, out, groups, rest, hrun, hph, hsplit, hout, hbuf⟩ :=
        run_ok_partition tl "" [] rfl
      refine ⟨s, .write b true :: out, pend :: groups, rest, ?_, hph, ?_, ?_, hbuf⟩
      · exact run_cons_some (step_tick_ok b h) hrun
      · rw [received_map_ok_cons_tick, List.flatten_cons, List.append_assoc, ← hsplit]
        rfl
      · rw [hout, hb]
        rfl

theorem writes_map_write (groups : List (List String)) :
    writes (groups.map (fun g => Effect.write (concat g) true)) = groups.map concat := by
  induction groups with
  | nil => rfl
  | cons g gs ih => simp [writes, ih]

theorem concat_map_concat (groups : List (List String)) :
    concat (groups.map concat) = concat groups.flatten := by
  induction groups with
  | nil => rfl
  | cons g gs ih => simp [concat, concat_append, ih]

/-- C2: in one streaming epoch, for every sequence of lines and ticks whose
socket writes all succeed, the run is defined and stays in the streaming loop;
the lines received split, in arrival order, into groups of consecutive lines
and a rest, such that the effects are exactly one successful write per group,
in order, each payload the concatenation of its group, and the buffer is the
concatenation of the rest.  Hence the payloads concatenated in write order,
followed by the buffer, are the concatenation of the lines received. -/
theorem packets_are_whole_lines (ins : List Input) :
    ∃ (s : Batcher) (out : List Effect) (groups : List (List String)) (rest : List String),
      run Batcher.fresh (ins.map Input.ok) = some (s, out) ∧
      s.phase = .STREAM ∧
      received (ins.map Input.ok) = groups.flatten ++ rest ∧
      out = groups.map (fun g => Effect.write (concat g) true) ∧
      writes out = groups.map concat ∧
      s.buf = concat rest ∧
      concat (writes out) ++ s.buf = concat (received (ins.map Input.ok)) := by
  obtain ⟨s, out, groups, rest, hrun, hph, hsplit, hout, hbuf⟩ :=
    run_ok_partition ins "" [] rfl
  have hw : writes out = groups.map concat := by rw [hout, writes_map_write]
  refine ⟨s, out, groups, rest, hrun, hph, by simpa using hsplit, hout, hw, hbuf, ?_⟩
  rw [hw, hbuf, concat_map_concat, ← concat_append]
  simpa using congrArg concat hsplit.symm

/-- C3: a line `m` longer than 1400 bytes received in the streaming loop with
buffer `b`, the writes succeeding.  The step writes `b` and leaves exactly `m`
in the buffer; from there a tick writes the one payload `m` and empties the
buffer, and a further line `m2` writes the one payload `m` and leaves `m2`;
so for every continuation of lines and ticks that is not empty the run is
defined and its first two payloads are `b` and then `m` alone. -/
theorem oversized_line_sent_alone (b m : String) (hbig : len m > statsdMaxLen) :
    step ⟨.STREAM, b⟩ (.metric m true) = some (⟨.STREAM, m⟩, [.write b true]) ∧
    step ⟨.STREAM, m⟩ (.tick true) = some (⟨.STREAM, ""⟩, [.write m true]) ∧
    (∀ m2, step ⟨.STREAM, m⟩ (.metric m2 true) = some (⟨.STREAM, m2⟩, [.write m true])) ∧
    (∀ (i : Input) (ins : List Input), ∃ (s : Batcher) (out : List Effect),
      run ⟨.STREAM, b⟩ (.metric m true :: (i :: ins).map Input.ok) =
        some (s, .write b true :: .write m true :: out) ∧
      writes (.write b true :: .write m true :: out) = b :: m :: writes out) := by
  have h1 : step ⟨.STREAM, b⟩ (.metric m true) = some (⟨.STREAM, m⟩, [.write b true]) :=
    step_line_overflow_ok b m (by omega)
  have h2 : step ⟨.STREAM, m⟩ (.tick true) = some (⟨.STREAM, ""⟩, [.write m true]) :=
    step_tick_ok m (by omega)
  have h3 : ∀ m2, step ⟨.STREAM, m⟩ (.metric m2 true) = some (⟨.STREAM, m2⟩, [.write m true]) :=
    fun m2 => step_line_overflow_ok m m2 (by omega)
  refine ⟨h1, h2, h3, ?_⟩
  intro i ins
  cases i with
  | line m2 =>
    obtain ⟨s, out, _, _, hrun, _⟩ := run_ok_partition ins m2 [m2] (concat_singleton m2).symm
    exact ⟨s, out, run_cons_some h1 (run_cons_some (h3 m2) hrun), rfl⟩
  | tick =>
    obtain ⟨s, out, _, _, hrun, _⟩ := run_ok_partition ins "" [] rfl
    exact ⟨s, out, run_cons_some h1 (run_cons_some h2 hrun), rfl⟩

/-- C3 at a concrete line of 1401 bytes arriving on the buffer `a:1|kv`. -/
theorem oversized_line_sent_alone_witness :
    len (sampleLine 1401) > statsdMaxLen ∧
    step ⟨.STREAM, "a:1|kv\n"⟩ (.metric (sampleLine 1401) true) =
      some (⟨.STREAM, sampleLine 1401⟩, [.write "a:1|kv\n" true]) ∧
    step ⟨.STREAM, sampleLine 1401⟩ (.tick true) =
      some (⟨.STREAM, ""⟩, [.write (sampleLine 1401) true]) :=
  have h : len (sampleLine 1401) > statsdMaxLen := by rw [len_sampleLine]; decide
  ⟨h, (oversized_line_sent_alone "a:1|kv\n" (sampleLine 1401) h).1,
    (oversized_line_sent_alone "a:1|kv\n" (sampleLine 1401) h).2.1⟩

/-- One step from a state whose buffer is the concatenation of the pending
lines `pend` (none outside the streaming loop): every payload written is the
concatenation of `pend`, and the new buffer is the concatenation of a suffix of
`pend` followed by the line received, if any. -/
theorem step_pending {s s1 : Batcher} {e : Event} {o1 : List Effect} {pend : List String}
    (hb : s.buf = concat pend) (hp : s.phase = .CONNECT ∨ s.phase = .WAIT → pend = [])
    (h : step s e = some (s1, o1)) :
    (∀ p ∈ writes o1, p = concat pend) ∧
    ∃ pend1, pend1 <:+ pend ++ received [e] ∧ s1.buf = concat pend1 ∧
      (s1.phase = .CONNECT ∨ s1.phase = .WAIT → pend1 = []) := by
  obtain ⟨ph, b⟩ := s
  simp only at hb hp
  cases ph <;> cases e <;> simp only [step] at h <;> (try split_ifs at h) <;>
    simp only [Option.some.injEq, Prod.mk.injEq, reduceCtorEq] at h <;>
    obtain ⟨rfl, rfl⟩ := h
  -- CONNECT, dialed, success
  · exact ⟨by simp [writes], pend, by simp [received], hb, fun _ => hp (Or.inl rfl)⟩
  -- CONNECT, dialed, failure
  · exact ⟨by simp [writes], pend, by simp [received], hb, fun _ => hp (Or.inl rfl)⟩
  -- STREAM, metric, overflow, write succeeds
  · rename_i m _ _ _
    exact ⟨by simp [writes, hb], [m], by simp [received], by simp [concat], by simp⟩
  -- STREAM, metric, overflow, write fails
  · exact ⟨by simp [writes, hb], [], by simp, rfl, by simp⟩
  -- STREAM, metric, fits
  · rename_i m _ _
    exact ⟨by simp [writes], pend ++ [m], by simp [received],
      by simp [concat_append, concat, hb], by simp⟩
  -- STREAM, closed
  · exact ⟨by simp [writes], pend, by simp [received], hb, by simp⟩
  -- STREAM, tick, empty buffer
  · exact ⟨by simp [writes], pend, by simp [received], hb, by simp⟩
  -- STREAM, tick, write succeeds
  · exact ⟨by simp [writes, hb], [], by simp, rfl, by simp⟩
  -- STREAM, tick, write fails
  · exact ⟨by simp [writes, hb], [], by simp, rfl, by simp⟩
  -- WAIT, metric
  · exact ⟨by simp [writes], [], by simp, by rw [hb, hp (Or.inr rfl)], by simp⟩
  -- WAIT, closed
  · exact ⟨by simp [writes], pend, by simp [received], hb, by simp⟩
  -- WAIT, waited
  · exact ⟨by simp [writes], [], by simp, rfl, by simp⟩

/-- Along a run from a state whose buffer is the concatenation of the pending
lines `pend` (none outside the streaming loop), every payload written is the
concatenation of consecutive lines of `pend` followed by the lines received, and
so is the final buffer; outside the streaming loop the buffer stays empty. -/
theorem run_pending : ∀ (evs : List Event) (s s2 : Batcher) (out : List Effect)
    (pend : List String),
    s.buf = concat pend → (s.phase = .CONNECT ∨ s.phase = .WAIT → pend = []) →
    run s evs = some (s2, out) →
    (∀ p ∈ writes out, ∃ ls, ls <:+: pend ++ received evs ∧ p = concat ls) ∧
    ∃ pend2, pend2 <:+ pend ++ received evs ∧ s2.buf = concat pend2 ∧
      (s2.phase = .CONNECT ∨ s2.phase = .WAIT → pend2 = [])
  | [], s, s2, out, pend, hb, hp, h => by
    simp only [run, Option.some.injEq, Prod.mk.injEq] at h
    obtain ⟨rfl, rfl⟩ := h
    exact ⟨by simp [writes], pend, by simp [received], hb, hp⟩
  | e :: es, s, s2, out, pend, hb, hp, h => by
    obtain ⟨s1, o1, o2, h1, h2, rfl⟩ := run_cons_inv h
    obtain ⟨hw1, pend1, hsuf1, hb1, hp1⟩ := step_pending hb hp h1
    obtain ⟨hw2, pend2, hsuf2, hb2, hp2⟩ := run_pending es s1 s2 o2 pend1 hb1 hp1 h2
    have hrec : received (e :: es) = received [e] ++ received es := by
      cases e <;> simp [received]
    have hsuf : pend1 ++ received es <:+ pend ++ received (e :: es) := by
      obtain ⟨t, ht⟩ := hsuf1
      exact ⟨t, by rw [hrec, ← List.append_assoc pend, ← ht]; simp⟩
    refine ⟨?_, pend2, hsuf2.trans hsuf, hb2, hp2⟩
    intro p hp'
    rw [writes_append, List.mem_append] at hp'
    cases hp' with
    | inl hp' =>
      exact ⟨pend, (List.prefix_append _ _).isInfix, hw1 p hp'⟩
    | inr hp' =>
      obtain ⟨ls, hls, hpl⟩ := hw2 p hp'
      exact ⟨ls, hls.trans hsuf.isInfix, hpl⟩

/-- A step that enters the streaming loop from outside it keeps the buffer: it
is the return of `net.Dial` without error. -/
theorem step_into_stream {s s2 : Batcher} {e : Event} {o : List Effect}
    (hne : s.phase ≠ .STREAM) (h : step s e = some (s2, o)) (h2 : s2.phase = .STREAM) :
    s.phase = .CONNECT ∧ s2.buf = s.buf := by
  obtain ⟨ph, b⟩ := s
  cases ph <;> cases e <;> simp only [step] at h <;> (try split_ifs at h) <;>
    simp only [Option.some.injEq, Prod.mk.injEq, reduceCtorEq] at h <;>
    obtain ⟨rfl, rfl⟩ := h <;> simp_all

/-- C10: a flush write that fails in the streaming loop with buffer `b`, be it
the flush forced by a line `m` with `len m + len b > 1400` or the flush of a
non-empty buffer on a tick.  The step writes `b` once, unsuccessfully, logs, and
ends in the waiting loop with an empty buffer.  Whatever events follow, the run
continues as from the waiting loop with an empty buffer: every payload written
later is a concatenation of consecutive lines received after the failure, the
buffer is empty wherever the run stands at `CONNECT` or in the waiting loop, and
any step that enters the streaming loop from outside it enters with an empty
buffer. -/
theorem failed_flush_discards_buffer (b : String) (e : Event)
    (hfail : (∃ m, e = .metric m false ∧ len m + len b > statsdMaxLen) ∨
      (e = .tick false ∧ len b ≠ 0)) :
    ∃ msg, step ⟨.STREAM, b⟩ e = some (⟨.WAIT, ""⟩, [.write b false, .log msg]) ∧
      ∀ (evs : List Event) (s : Batcher) (out : List Effect),
        run ⟨.STREAM, b⟩ (e :: evs) = some (s, out) →
        ∃ out2, out = .write b false :: .log msg :: out2 ∧
          run ⟨.WAIT, ""⟩ evs = some (s, out2) ∧
          (∀ p ∈ writes out2, ∃ ls, ls <:+: received evs ∧ p = concat ls) ∧
          (s.phase = .CONNECT ∨ s.phase = .WAIT → s.buf = "") ∧
          (∀ (e2 : Event) (s2 : Batcher) (o2 : List Effect), s.phase ≠ .STREAM →
            step s e2 = some (s2, o2) → s2.phase = .STREAM → s2.buf = "") := by
  have hstep : ∃ msg, step ⟨.STREAM, b⟩ e = some (⟨.WAIT, ""⟩, [.write b false, .log msg]) := by
    rcases hfail with ⟨m, rfl, h⟩ | ⟨rfl, h⟩
    · exact ⟨_, step_line_overflow_fail b m h⟩
    · exact ⟨_, step_tick_fail b h⟩
  obtain ⟨msg, hstep⟩ := hstep
  refine ⟨msg, hstep, ?_⟩
  intro evs s out hrun
  obtain ⟨s1, o1, o2, h1, h2, rfl⟩ := run_cons_inv hrun
  rw [hstep] at h1
  simp only [Option.some.injEq, Prod.mk.injEq] at h1
  obtain ⟨rfl, rfl⟩ := h1
  obtain ⟨hw, pend2, _, hb2, hp2⟩ :=
    run_pending evs ⟨.WAIT, ""⟩ s o2 [] rfl (fun _ => rfl) h2
  have hempty : s.phase = .CONNECT ∨ s.phase = .WAIT → s.buf = "" := by
    intro hph
    rw [hb2, hp2 hph]
    rfl
  refine ⟨o2, rfl, h2, by simpa using hw, hempty, ?_⟩
  intro e2 s2 o2 hne hstep2 hin
  obtain ⟨hc, hbuf⟩ := step_into_stream hne hstep2 hin
  rw [hbuf, hempty (Or.inl hc)]

/-- C10 at a concrete failure: the flush of the buffer `a:1|kv` on a tick fails;
a line is then dropped, the cooldown elapses, the dial succeeds, and the
streaming loop is entered with an empty buffer and nothing written again. -/
theorem failed_flush_discards_buffer_witness :
    ((∃ m, Event.tick false = .metric m false ∧ len m + len "a:1|kv\n" > statsdMaxLen) ∨
      (Event.tick false = .tick false ∧ len "a:1|kv\n" ≠ 0)) ∧
    run ⟨.STREAM, "a:1|kv\n"⟩ [.tick false, .metric "b:2|kv\n" true, .waited, .dialed true] =
      some (⟨.STREAM, ""⟩, [.write "a:1|kv\n" false,
        .log "[ERR] Error flushing to statsd! Err: %s", .dial true]) ∧
    ∃ msg, step ⟨.STREAM, "a:1|kv\n"⟩ (.tick false) =
      some (⟨.WAIT, ""⟩, [.write "a:1|kv\n" false, .log msg]) :=
  have hfail : (∃ m, Event.tick false = .metric m false ∧
      len m + len "a:1|kv\n" > statsdMaxLen) ∨
      (Event.tick false = .tick false ∧ len "a:1|kv\n" ≠ 0) := Or.inr ⟨rfl, by decide⟩
  ⟨hfail, by decide,
    (failed_flush_discards_buffer "a:1|kv\n" (.tick false) hfail).elim
      fun msg h => ⟨msg, h.1⟩⟩

/-! ## The metric queue -/

theorem pushMetric_full (s : statsdSink) (m : String)
    (h : ¬ s.metricQueue.items.length < s.metricQueue.cap) : pushMetric s m = s := by
  simp [pushMetric, Chan.trySend, h]

theorem pushMetric_room (s : statsdSink) (m : String)
    (h : s.metricQueue.items.length < s.metricQueue.cap) :
    pushMetric s m =
      { s with metricQueue := { s.metricQueue with items := s.metricQueue.items ++ [m] } } := by
  simp [pushMetric, Chan.trySend, h]

/-- A queue operation keeps the capacity, and keeps the number of queued lines
within it. -/
theorem applyOp_bounded (s : statsdSink) (op : QueueOp)
    (h : s.metricQueue.items.length ≤ s.metricQueue.cap) :
    (applyOp s op).metricQueue.cap = s.metricQueue.cap ∧
    (applyOp s op).metricQueue.items.length ≤ s.metricQueue.cap := by
  cases op with
  | push m =>
    by_cases hroom : s.metricQueue.items.length < s.metricQueue.cap
    · rw [applyOp, pushMetric_room s m hroom]
      refine ⟨rfl, ?_⟩
      simp only [List.length_append, List.length_singleton]
      omega
    · rw [applyOp, pushMetric_full s m hroom]
      exact ⟨rfl, h⟩
  | pop =>
    obtain ⟨⟨items, cap⟩, addr, d⟩ := s
    cases items with
    | nil => exact ⟨rfl, h⟩
    | cons x xs =>
      simp only [List.length_cons] at h
      refine ⟨rfl, ?_⟩
      show xs.length ≤ cap
      omega

theorem applyOps_bounded : ∀ (ops : List QueueOp) (s : statsdSink),
    s.metricQueue.items.length ≤ s.metricQueue.cap →
    (applyOps s ops).metricQueue.cap = s.metricQueue.cap ∧
    (applyOps s ops).metricQueue.items.length ≤ s.metricQueue.cap
  | [], _, h => ⟨rfl, h⟩
  | op :: ops, s, h => by
    have h1 := applyOp_bounded s op h
    have h2 := applyOps_bounded ops (applyOp s op) (by rw [h1.1]; exact h1.2)
    rw [h1.1] at h2
    exact h2

/-- C4: starting from the sink `Statsd` creates (empty queue of capacity 4096),
after every sequence of `pushMetric` and receive operations the queue holds at
most 4096 lines; and at any fill level a further `pushMetric` returns a sink,
through the send when the channel accepts the line and through the empty
`default` when the send would block, again with at most 4096 lines queued. -/
theorem queue_never_exceeds_capacity (d : Int) (addr : String) (ops : List QueueOp) :
    (applyOps (newSink d addr) ops).metricQueue.items.length ≤ 4096 ∧
    ∀ m : String,
      ((∃ q, (applyOps (newSink d addr) ops).metricQueue.trySend m = some q ∧
          pushMetric (applyOps (newSink d addr) ops) m =
            { applyOps (newSink d addr) ops with metricQueue := q }) ∨
        ((applyOps (newSink d addr) ops).metricQueue.trySend m = none ∧
          pushMetric (applyOps (newSink d addr) ops) m = applyOps (newSink d addr) ops)) ∧
      (pushMetric (applyOps (newSink d addr) ops) m).metricQueue.items.length ≤ 4096 := by
  have h := applyOps_bounded ops (newSink d addr) (Nat.zero_le _)
  refine ⟨h.2, fun m => ⟨?_, ?_⟩⟩
  · cases hsend : (applyOps (newSink d addr) ops).metricQueue.trySend m with
    | none => exact Or.inr ⟨rfl, by simp [pushMetric, hsend]⟩
    | some q => exact Or.inl ⟨q, rfl, by simp [pushMetric, hsend]⟩
  · have h2 := applyOps_bounded (ops ++ [.push m]) (newSink d addr) (Nat.zero_le _)
    simpa [applyOps, applyOp] using h2.2

/-- C5: `pushMetric` on a queue of capacity 4096.  When the queue already holds
4096 lines the sink is returned unchanged; when it holds fewer, the line is
appended at the tail, the lines already queued keep their places, and the other
fields of the sink are unchanged. -/
theorem pushMetric_drops_newest (s : statsdSink) (m : String)
    (hcap : s.metricQueue.cap = 4096) :
    (s.metricQueue.items.length = 4096 → pushMetric s m = s) ∧
    (s.metricQueue.items.length < 4096 →
      pushMetric s m =
        { metricQueue := { items := s.metricQueue.items ++ [m], cap := 4096 },
          addr := s.addr, duration := s.duration }) := by
  constructor
  · intro h
    exact pushMetric_full s m (by omega)
  · intro h
    rw [pushMetric_room s m (by omega)]
    simp only [hcap]

/-- C5 at a full queue and at a queue holding one line. -/
theorem pushMetric_drops_newest_witness :
    pushMetric ⟨⟨List.replicate 4096 "a:1|kv\n", 4096⟩, "localhost:8125", 1⟩ "b:2|kv\n" =
      ⟨⟨List.replicate 4096 "a:1|kv\n", 4096⟩, "localhost:8125", 1⟩ ∧
    pushMetric ⟨⟨["a:1|kv\n"], 4096⟩, "localhost:8125", 1⟩ "b:2|kv\n" =
      ⟨⟨["a:1|kv\n", "b:2|kv\n"], 4096⟩, "localhost:8125", 1⟩ :=
  ⟨(pushMetric_drops_newest ⟨⟨List.replicate 4096 "a:1|kv\n", 4096⟩, "localhost:8125", 1⟩
      "b:2|kv\n" rfl).1 (List.length_replicate _ _),
   (pushMetric_drops_newest ⟨⟨["a:1|kv\n"], 4096⟩, "localhost:8125", 1⟩
      "b:2|kv\n" rfl).2 (by decide)⟩

/-! ## The snapshot formatter -/

/-- C7: for every name and count, `metricLines` of a Counter is the one line made
of the name, a colon, the decimal text of the count, `|kv` and a newline; one
run of the callback on it is one call of `pushMetric` with that line, which on a
queue with room appends exactly that line.  For the Counter `requests` = 42 the
line is `requests:42|kv`. -/
theorem counter_one_line (φ : FloatText) (name : String) (c : Int) (s : statsdSink) :
    metricLines φ name (.counter c) = some [name ++ ":" ++ toString c ++ "|kv\n"] ∧
    sampleMetric φ s name (.counter c) =
      some (pushMetric s (name ++ ":" ++ toString c ++ "|kv\n")) ∧
    sampleMetric φ (newSink 1 "localhost:8125") "requests" (.counter 42) =
      some { newSink 1 "localhost:8125" with
        metricQueue := { items := ["requests:42|kv\n"], cap := 4096 } } := by
  have h : ∀ (n : String) (k : Int),
      metricLines φ n (.counter k) = some [n ++ ":" ++ toString k ++ "|kv\n"] := by
    intro n k
    simp only [metricLines, Option.some.injEq, List.cons.injEq, and_true]
    apply String.ext
    simp [Sprintf, sprintfAux, formatArg]
  refine ⟨h name c, ?_, ?_⟩
  · simp [sampleMetric, h]
  · simp only [sampleMetric, h, Option.map_some', List.foldl_cons, List.foldl_nil]
    rfl

/-- The five lines of a Meter, as `fmt.Sprintf` renders them: the count under
`%d`, and each rate, a `float64` passed to the verb `%d`, as a bad verb. -/
theorem meter_lines (φ : FloatText) (name : String) (ss : MeterSnapshot) :
    metricLines φ name (.meter ss) = some [
      name ++ ".count:" ++ toString ss.Count ++ "|kv\n",
      name ++ ".one-minute:" ++ ("%!d(float64=" ++ φ.verbV ss.Rate1 ++ ")") ++ "|kv\n",
      name ++ ".five-minute:" ++ ("%!d(float64=" ++ φ.verbV ss.Rate5 ++ ")") ++ "|kv\n",
      name ++ ".fifteen-minute:" ++ ("%!d(float64=" ++ φ.verbV ss.Rate15 ++ ")") ++ "|kv\n",
      name ++ ".mean:" ++ ("%!d(float64=" ++ φ.verbV ss.RateMean ++ ")") ++ "|kv\n"] := by
  simp only [metricLines, Option.some.injEq, List.cons.injEq, and_true]
  refine ⟨?_, ?_, ?_, ?_, ?_⟩ <;>
    (apply String.ext
     simp [Sprintf, sprintfAux, formatArg, badVerb, Arg.typeName, Arg.verbV])

/-- The ten lines of a Histogram whose percentile call returns at least five
values. -/
theorem histogram_lines (φ : FloatText) (name : String) (ss : HistogramSnapshot)
    (p0 p1 p2 p3 p4 : Float) (more : List Float)
    (hps : ss.Percentiles quantiles = p0 :: p1 :: p2 :: p3 :: p4 :: more) :
    metricLines φ name (.histogram ss) = some [
      name ++ ".count:" ++ toString ss.Count ++ "|kv\n",
      name ++ ".min:" ++ φ.verbF ss.Min ++ "|kv\n",
      name ++ ".max:" ++ φ.verbF ss.Max ++ "|kv\n",
      name ++ ".mean:" ++ φ.verbF ss.Mean ++ "|kv\n",
      name ++ ".std-dev:" ++ φ.verbF ss.StdDev ++ "|kv\n",
      name ++ ".50-percentile:" ++ φ.verbF p0 ++ "|kv\n",
      name ++ ".75-percentile:" ++ φ.verbF p1 ++ "|kv\n",
      name ++ ".95-percentile:" ++ φ.verbF p2 ++ "|kv\n",
      name ++ ".99-percentile:" ++ φ.verbF p3 ++ "|kv\n",
      name ++ ".999-percentile:" ++ φ.verbF p4 ++ "|kv\n"] := by
  simp only [metricLines, hps, bind, Option.bind, List.getElem?_cons_zero,
    List.getElem?_cons_succ, pure, Option.some.injEq, List.cons.injEq, and_true]
  refine ⟨?_, ?_, ?_, ?_, ?_, ?_, ?_, ?_, ?_, ?_⟩ <;>
    (apply String.ext
     simp [Sprintf, sprintfAux, formatArg, badVerb, Arg.typeName, Arg.verbV])

/-- The fourteen lines of a Timer whose percentile call returns at least five
values. -/
theorem timer_lines (φ : FloatText) (name : String) (ss : TimerSnapshot)
    (p0 p1 p2 p3 p4 : Float) (more : List Float)
    (hps : ss.Percentiles quantiles = p0 :: p1 :: p2 :: p3 :: p4 :: more) :
    metricLines φ name (.timer ss) = some [
      name ++ ".count:" ++ toString ss.Count ++ "|kv\n",
      name ++ ".min:" ++ φ.verbF ss.Min ++ "|kv\n",
      name ++ ".max:" ++ φ.verbF ss.Max ++ "|kv\n",
      name ++ ".mean:" ++ φ.verbF ss.Mean ++ "|kv\n",
      name ++ ".std-dev:" ++ φ.verbF ss.StdDev ++ "|kv\n",
      name ++ ".50-percentile:" ++ φ.verbF p0 ++ "|kv\n",
      name ++ ".75-percentile:" ++ φ.verbF p1 ++ "|kv\n",
      name ++ ".95-percentile:" ++ φ.verbF p2 ++ "|kv\n",
      name ++ ".99-percentile:" ++ φ.verbF p3 ++ "|kv\n",
      name ++ ".999-percentile:" ++ φ.verbF p4 ++ "|kv\n",
      name ++ ".one-minute:" ++ ("%!d(float64=" ++ φ.verbV ss.Rate1 ++ ")") ++ "|kv\n",
      name ++ ".five-minute:" ++ ("%!d(float64=" ++ φ.verbV ss.Rate5 ++ ")") ++ "|kv\n",
      name ++ ".fifteen-minute:" ++ ("%!d(float64=" ++ φ.verbV ss.Rate15 ++ ")") ++ "|kv\n",
      name ++ ".mean:" ++ ("%!d(float64=" ++ φ.verbV ss.RateMean ++ ")") ++ "|kv\n"] := by
  simp only [metricLines, hps, bind, Option.bind, List.getElem?_cons_zero,
    List.getElem?_cons_succ, pure, Option.some.injEq, List.cons.injEq, and_true]
  refine ⟨?_, ?_, ?_, ?_, ?_, ?_, ?_, ?_, ?_, ?_, ?_, ?_, ?_, ?_⟩ <;>
    (apply String.ext
     simp [Sprintf, sprintfAux, formatArg, badVerb, Arg.typeName, Arg.verbV])

/-- C6, as the source has it: for every Timer whose percentile call returns (at
least) five values, the callback emits exactly 14 lines, the ten lines of the
Histogram line set followed by the Meter line set without its first line
`.count`; the keys are, in order, `.count`, `.min`, `.max`, `.mean`, `.std-dev`,
`.50-percentile`, `.75-percentile`, `.95-percentile`, `.99-percentile`,
`.999-percentile`, `.one-minute`, `.five-minute`, `.fifteen-minute`, `.mean`,
and every line ends in `|kv` and a newline. -/
theorem timer_fourteen_lines (φ : FloatText) (name : String) (ss : TimerSnapshot)
    (p0 p1 p2 p3 p4 : Float) (more : List Float)
    (hps : ss.Percentiles [0.5, 0.75, 0.95, 0.99, 0.999] = p0 :: p1 :: p2 :: p3 :: p4 :: more) :
    ∃ (lines hist meter values : List String),
      metricLines φ name (.timer ss) = some lines ∧
      lines.length = 14 ∧
      metricLines φ name
        (.histogram ⟨ss.Count, ss.Min, ss.Max, ss.Mean, ss.StdDev, ss.Percentiles⟩) = some hist ∧
      metricLines φ name
        (.meter ⟨ss.Count, ss.Rate1, ss.Rate5, ss.Rate15, ss.RateMean⟩) = some meter ∧
      hist.length = 10 ∧ meter.length = 5 ∧
      lines = hist ++ meter.tail ∧
      lines = List.zipWith (fun key value => name ++ key ++ ":" ++ value ++ "|kv\n")
        [".count", ".min", ".max", ".mean", ".std-dev", ".50-percentile", ".75-percentile",
          ".95-percentile", ".99-percentile", ".999-percentile", ".one-minute",
          ".five-minute", ".fifteen-minute", ".mean"] values ∧
      values.length = 14 ∧
      ∀ l ∈ lines, ∃ body, l = body ++ "|kv\n" := by
  have ht := timer_lines φ name ss p0 p1 p2 p3 p4 more hps
  have hh := histogram_lines φ name
    ⟨ss.Count, ss.Min, ss.Max, ss.Mean, ss.StdDev, ss.Percentiles⟩ p0 p1 p2 p3 p4 more hps
  have hm := meter_lines φ name ⟨ss.Count, ss.Rate1, ss.Rate5, ss.Rate15, ss.RateMean⟩
  refine ⟨_, _, _,
    [toString ss.Count, φ.verbF ss.Min, φ.verbF ss.Max, φ.verbF ss.Mean, φ.verbF ss.StdDev,
      φ.verbF p0, φ.verbF p1, φ.verbF p2, φ.verbF p3, φ.verbF p4,
      "%!d(float64=" ++ φ.verbV ss.Rate1 ++ ")", "%!d(float64=" ++ φ.verbV ss.Rate5 ++ ")",
      "%!d(float64=" ++ φ.verbV ss.Rate15 ++ ")", "%!d(float64=" ++ φ.verbV ss.RateMean ++ ")"],
    ht, rfl, hh, hm, rfl, rfl, rfl, ?_, rfl, ?_⟩
  · simp only [List.zipWith, List.cons.injEq, and_true]
    refine ⟨?_, ?_, ?_, ?_, ?_, ?_, ?_, ?_, ?_, ?_, ?_, ?_, ?_, ?_⟩ <;>
      (apply String.ext
       simp)
  · intro l hl
    simp only [List.mem_cons, List.mem_nil_iff, or_false] at hl
    rcases hl with h | h | h | h | h | h | h | h | h | h | h | h | h | h <;>
      exact ⟨_, h⟩

/-- C6 as stated fails on the Timer of the scenario: it yields 14 lines, not
15. -/
theorem timer_not_fifteen_lines :
    (metricLines sampleFloatText "timer" (.timer sampleTimer)).map List.length = some 14 ∧
    (metricLines sampleFloatText "timer" (.timer sampleTimer)).map List.length ≠ some 15 := by
  have h := timer_lines sampleFloatText "timer" sampleTimer 2 3 8 9 9 [] rfl
  rw [h]
  exact ⟨rfl, by decide⟩

/-- C6 as amended, on the Timer of the scenario. -/
theorem timer_fourteen_lines_witness :
    sampleTimer.Percentiles [0.5, 0.75, 0.95, 0.99, 0.999] = [2, 3, 8, 9, 9] ∧
    ∃ (lines hist meter values : List String),
      metricLines sampleFloatText "timer" (.timer sampleTimer) = some lines ∧
      lines.length = 14 ∧
      metricLines sampleFloatText "timer"
        (.histogram ⟨sampleTimer.Count, sampleTimer.Min, sampleTimer.Max, sampleTimer.Mean,
          sampleTimer.StdDev, sampleTimer.Percentiles⟩) = some hist ∧
      metricLines sampleFloatText "timer"
        (.meter ⟨sampleTimer.Count, sampleTimer.Rate1, sampleTimer.Rate5, sampleTimer.Rate15,
          sampleTimer.RateMean⟩) = some meter ∧
      hist.length = 10 ∧ meter.length = 5 ∧
      lines = hist ++ meter.tail ∧
      lines = List.zipWith (fun key value => "timer" ++ key ++ ":" ++ value ++ "|kv\n")
        [".count", ".min", ".max", ".mean", ".std-dev", ".50-percentile", ".75-percentile",
          ".95-percentile", ".99-percentile", ".999-percentile", ".one-minute",
          ".five-minute", ".fifteen-minute", ".mean"] values ∧
      values.length = 14 ∧
      ∀ l ∈ lines, ∃ body, l = body ++ "|kv\n" :=
  ⟨rfl, timer_fourteen_lines sampleFloatText "timer" sampleTimer 2 3 8 9 9 [] rfl⟩

/-- C8, the code at the Meter `m` with count 3 and rates 1, 2, 3, 4: five lines
in the order `.count`, `.one-minute`, `.five-minute`, `.fifteen-minute`,
`.mean`, each of the form bucket, colon, value, `|kv`, newline; the count is
printed in decimal, but the value of each rate line is the bad-verb text
`%!d(float64=...)` around the number, because the format passes a `float64` to
the verb `%d`: it is not the plain numeric text of the rate. -/
theorem meter_rates_printed_as_bad_verb (φ : FloatText) :
    metricLines φ "m" (.meter sampleMeter) = some [
      "m.count:3|kv\n",
      "m.one-minute:%!d(float64=" ++ φ.verbV 1 ++ ")|kv\n",
      "m.five-minute:%!d(float64=" ++ φ.verbV 2 ++ ")|kv\n",
      "m.fifteen-minute:%!d(float64=" ++ φ.verbV 3 ++ ")|kv\n",
      "m.mean:%!d(float64=" ++ φ.verbV 4 ++ ")|kv\n"] := by
  rw [meter_lines]
  simp only [Option.some.injEq, List.cons.injEq, and_true]
  refine ⟨rfl, ?_, ?_, ?_, ?_⟩ <;>
    (apply String.ext
     simp [sampleMeter])

/-- C9: for every Histogram name and snapshot `ss` (the result of the single
call `metric.Snapshot()`) whose call `ss.Percentiles` on the quantiles 0.5,
0.75, 0.95, 0.99, 0.999 returns the values `p0` to `p4` in that order, the
callback emits exactly ten lines, in the order `.count`, `.min`, `.max`,
`.mean`, `.std-dev`, `.50-percentile`, `.75-percentile`, `.95-percentile`,
`.99-percentile`, `.999-percentile`; the first five values are fields of `ss`,
the five percentile values are `p0` to `p4`. -/
theorem histogram_ten_lines (φ : FloatText) (name : String) (ss : HistogramSnapshot)
    (p0 p1 p2 p3 p4 : Float) (more : List Float)
    (hps : ss.Percentiles [0.5, 0.75, 0.95, 0.99, 0.999] = p0 :: p1 :: p2 :: p3 :: p4 :: more) :
    ∃ lines : List String,
      metricLines φ name (.histogram ss) = some lines ∧
      lines.length = 10 ∧
      lines = [
        name ++ ".count:" ++ toString ss.Count ++ "|kv\n",
        name ++ ".min:" ++ φ.verbF ss.Min ++ "|kv\n",
        name ++ ".max:" ++ φ.verbF ss.Max ++ "|kv\n",
        name ++ ".mean:" ++ φ.verbF ss.Mean ++ "|kv\n",
        name ++ ".std-dev:" ++ φ.verbF ss.StdDev ++ "|kv\n",
        name ++ ".50-percentile:" ++ φ.verbF p0 ++ "|kv\n",
        name ++ ".75-percentile:" ++ φ.verbF p1 ++ "|kv\n",
        name ++ ".95-percentile:" ++ φ.verbF p2 ++ "|kv\n",
        name ++ ".99-percentile:" ++ φ.verbF p3 ++ "|kv\n",
        name ++ ".999-percentile:" ++ φ.verbF p4 ++ "|kv\n"] :=
  ⟨_, histogram_lines φ name ss p0 p1 p2 p3 p4 more hps, rfl, rfl⟩

/-- C9 on a Histogram with count 10, min 1.0, max 9.0, mean 5.0, standard
deviation 2.0 and percentiles 2, 3, 8, 9, 9. -/
theorem histogram_ten_lines_witness :
    sampleHistogram.Percentiles [0.5, 0.75, 0.95, 0.99, 0.999] = [2, 3, 8, 9, 9] ∧
    ∃ lines : List String,
      metricLines sampleFloatText "h" (.histogram sampleHistogram) = some lines ∧
      lines.length = 10 ∧
      lines = [
        "h" ++ ".count:" ++ toString sampleHistogram.Count ++ "|kv\n",
        "h" ++ ".min:" ++ sampleFloatText.verbF sampleHistogram.Min ++ "|kv\n",
        "h" ++ ".max:" ++ sampleFloatText.verbF sampleHistogram.Max ++ "|kv\n",
        "h" ++ ".mean:" ++ sampleFloatText.verbF sampleHistogram.Mean ++ "|kv\n",
        "h" ++ ".std-dev:" ++ sampleFloatText.verbF sampleHistogram.StdDev ++ "|kv\n",
        "h" ++ ".50-percentile:" ++ sampleFloatText.verbF 2 ++ "|kv\n",
        "h" ++ ".75-percentile:" ++ sampleFloatText.verbF 3 ++ "|kv\n",
        "h" ++ ".95-percentile:" ++ sampleFloatText.verbF 8 ++ "|kv\n",
        "h" ++ ".99-percentile:" ++ sampleFloatText.verbF 9 ++ "|kv\n",
        "h" ++ ".999-percentile:" ++ sampleFloatText.verbF 9 ++ "|kv\n"] :=
  ⟨rfl, histogram_ten_lines sampleFloatText "h" sampleHistogram 2 3 8 9 9 [] rfl⟩

/-! ## Runs of `flushMetrics`: composition, termination, the waiting loop -/

theorem run_append_some : ∀ (as bs : List Event) (s s1 s2 : Batcher) (o1 o2 : List Effect),
    run s as = some (s1, o1) → run s1 bs = some (s2, o2) →
    run s (as ++ bs) = some (s2, o1 ++ o2)
  | [], bs, s, s1, s2, o1, o2, h1, h2 => by
    simp only [run, Option.some.injEq, Prod.mk.injEq] at h1
    obtain ⟨rfl, rfl⟩ := h1
    simpa using h2
  | a :: as, bs, s, s1, s2, o1, o2, h1, h2 => by
    obtain ⟨sa, oa, ob, ha, hb, rfl⟩ := run_cons_inv h1
    have h := run_append_some as bs sa s1 s2 ob o2 hb h2
    rw [List.cons_append, List.append_assoc]
    exact run_cons_some ha h

theorem run_append_inv : ∀ (as bs : List Event) (s s2 : Batcher) (out : List Effect),
    run s (as ++ bs) = some (s2, out) →
    ∃ s1 o1 o2, run s as = some (s1, o1) ∧ run s1 bs = some (s2, o2) ∧ out = o1 ++ o2
  | [], bs, s, s2, out, h => ⟨s, [], out, rfl, by simpa using h, rfl⟩
  | a :: as, bs, s, s2, out, h => by
    rw [List.cons_append] at h
    obtain ⟨sa, oa, ob, ha, hb, rfl⟩ := run_cons_inv h
    obtain ⟨s1, o1, o2, h1, h2, rfl⟩ := run_append_inv as bs sa s2 ob hb
    exact ⟨s1, oa ++ o1, o2, run_cons_some ha h1, h2, by rw [List.append_assoc]⟩

theorem step_quit (b : String) (e : Event) : step ⟨.QUIT, b⟩ e = none := by
  cases e <;> rfl

theorem run_quit {b : String} {evs : List Event} {s : Batcher} {out : List Effect}
    (h : run ⟨.QUIT, b⟩ evs = some (s, out)) : evs = [] ∧ s = ⟨.QUIT, b⟩ ∧ out = [] := by
  cases evs with
  | nil =>
    simp only [run, Option.some.injEq, Prod.mk.injEq] at h
    exact ⟨rfl, h.1.symm, h.2.symm⟩
  | cons e es =>
    obtain ⟨s1, o1, o2, h1, _, _⟩ := run_cons_inv h
    rw [step_quit] at h1
    exact absurd h1 (by simp)

theorem run_wait_lines : ∀ (ls : List (String × Bool)) (b : String),
    run ⟨.WAIT, b⟩ (lineEvents ls) = some (⟨.WAIT, b⟩, [])
  | [], _ => rfl
  | l :: ls, b => by
    have h1 : step ⟨.WAIT, b⟩ (.metric l.1 l.2) = some (⟨.WAIT, b⟩, []) := rfl
    exact run_cons_some h1 (run_wait_lines ls b)

theorem received_lineEvents (ls : List (String × Bool)) :
    received (lineEvents ls) = ls.map Prod.fst := by
  induction ls with
  | nil => rfl
  | cons l ls ih =>
    show l.1 :: received (lineEvents ls) = l.1 :: ls.map Prod.fst
    rw [ih]

/-- From the waiting loop, whatever the buffer, every payload written later is
the concatenation of consecutive lines received from then on. -/
theorem run_wait_pending : ∀ (evs : List Event) (b : String) (s : Batcher) (out : List Effect),
    run ⟨.WAIT, b⟩ evs = some (s, out) →
    ∀ p ∈ writes out, ∃ seg, seg <:+: received evs ∧ p = concat seg
  | [], b, s, out, h => by
    simp only [run, Option.some.injEq, Prod.mk.injEq] at h
    obtain ⟨_, rfl⟩ := h
    simp [writes]
  | e :: es, b, s, out, h => by
    obtain ⟨s1, o1, o2, h1, h2, rfl⟩ := run_cons_inv h
    cases e with
    | dialed ok => exact absurd h1 (by simp [step])
    | tick wok => exact absurd h1 (by simp [step])
    | metric m wok =>
      simp only [step, Option.some.injEq, Prod.mk.injEq] at h1
      obtain ⟨rfl, rfl⟩ := h1
      intro p hp
      obtain ⟨seg, hseg, hp2⟩ := run_wait_pending es b s o2 h2 p (by simpa using hp)
      exact ⟨seg, hseg.trans (List.suffix_cons m _).isInfix, hp2⟩
    | closed =>
      simp only [step, Option.some.injEq, Prod.mk.injEq] at h1
      obtain ⟨rfl, rfl⟩ := h1
      obtain ⟨_, _, rfl⟩ := run_quit h2
      simp [writes]
    | waited =>
      simp only [step, Option.some.injEq, Prod.mk.injEq] at h1
      obtain ⟨rfl, rfl⟩ := h1
      intro p hp
      obtain ⟨hw, _⟩ := run_pending es ⟨.CONNECT, ""⟩ s o2 [] rfl (fun _ => rfl) h2
      obtain ⟨seg, hseg, hp2⟩ := hw p (by simpa using hp)
      exact ⟨seg, by simpa [received] using hseg, hp2⟩

/-- C11: the waiting loop with its buffer `b`.  Every sequence of lines received
there leaves the state as it is and performs no effect at all: no socket write,
no dial, the lines are dropped.  No step from the waiting loop writes or dials;
the step that takes the batcher on to `CONNECT` is the one of the
cooldown-elapsed event, and no line does so (the end of the queue stops the
batcher, see C12).  Hence a run that first receives the lines `ls` in the
waiting loop and then the events `rest` is the run over `rest` alone, and every
payload it writes is a concatenation of consecutive lines received in `rest`:
none of the dropped lines is written. -/
theorem waiting_drops_lines (b : String) (ls : List (String × Bool)) (rest : List Event)
    (s : Batcher) (out : List Effect)
    (hrun : run ⟨.WAIT, b⟩ (lineEvents ls ++ rest) = some (s, out)) :
    run ⟨.WAIT, b⟩ (lineEvents ls) = some (⟨.WAIT, b⟩, []) ∧
    step ⟨.WAIT, b⟩ .waited = some (⟨.CONNECT, ""⟩, []) ∧
    (∀ (e : Event) (s1 : Batcher) (o1 : List Effect), step ⟨.WAIT, b⟩ e = some (s1, o1) →
      writes o1 = [] ∧ dials o1 = 0 ∧ s1.phase ≠ .STREAM ∧
      (s1.phase = .CONNECT → e = .waited) ∧
      (∀ m wok, e = .metric m wok → s1 = ⟨.WAIT, b⟩ ∧ o1 = [])) ∧
    run ⟨.WAIT, b⟩ rest = some (s, out) ∧
    ∀ p ∈ writes out, ∃ seg, seg <:+: received rest ∧ p = concat seg := by
  have hlines := run_wait_lines ls b
  obtain ⟨s1, o1, o2, h1, h2, rfl⟩ := run_append_inv _ _ _ _ _ hrun
  rw [hlines] at h1
  simp only [Option.some.injEq, Prod.mk.injEq] at h1
  obtain ⟨rfl, rfl⟩ := h1
  refine ⟨hlines, rfl, ?_, by simpa using h2, ?_⟩
  · intro e s1 o1 hstep
    cases e <;> simp only [step, Option.some.injEq, Prod.mk.injEq, reduceCtorEq] at hstep <;>
      obtain ⟨rfl, rfl⟩ := hstep <;> simp [writes, dials]
  · simpa using run_wait_pending rest b s o2 h2

/-- C11 at a concrete run: two lines dropped in the waiting loop, then the
cooldown, a successful dial, a line and a tick that flushes it. -/
theorem waiting_drops_lines_witness :
    run ⟨.WAIT, ""⟩ (lineEvents [("a:1|kv\n", true), ("b:2|kv\n", false)] ++
        [.waited, .dialed true, .metric "c:3|kv\n" true, .tick true]) =
      some (⟨.STREAM, ""⟩, [.dial true, .write "c:3|kv\n" true]) ∧
    run ⟨.WAIT, ""⟩ [.waited, .dialed true, .metric "c:3|kv\n" true, .tick true] =
      some (⟨.STREAM, ""⟩, [.dial true, .write "c:3|kv\n" true]) :=
  have hrun : run ⟨.WAIT, ""⟩ (lineEvents [("a:1|kv\n", true), ("b:2|kv\n", false)] ++
        [.waited, .dialed true, .metric "c:3|kv\n" true, .tick true]) =
      some (⟨.STREAM, ""⟩, [.dial true, .write "c:3|kv\n" true]) := by decide
  ⟨hrun, (waiting_drops_lines "" _ _ _ _ hrun).2.2.2.1⟩

/-- C12: the end of the queue, received in the streaming loop or in the waiting
loop with any buffer `b`, ends `flushMetrics`: the step performs no write and no
dial (its one effect is the deferred stop of the ticker) and leaves the buffer
unwritten; once ended, no event is received any more, so a run from the final
state is the empty run, with no effect. -/
theorem end_of_stream_is_terminal (b : String) :
    step ⟨.STREAM, b⟩ .closed = some (⟨.QUIT, b⟩, [.stopTicker]) ∧
    step ⟨.WAIT, b⟩ .closed = some (⟨.QUIT, b⟩, [.stopTicker]) ∧
    writes [Effect.stopTicker] = [] ∧ dials [Effect.stopTicker] = 0 ∧
    (∀ e : Event, step ⟨.QUIT, b⟩ e = none) ∧
    (∀ (evs : List Event) (s : Batcher) (out : List Effect),
      run ⟨.QUIT, b⟩ evs = some (s, out) → evs = [] ∧ s = ⟨.QUIT, b⟩ ∧ out = []) ∧
    (∀ (p : Phase) (evs : List Event) (s : Batcher) (out : List Effect),
      p = .STREAM ∨ p = .WAIT → run ⟨p, b⟩ (.closed :: evs) = some (s, out) →
      evs = [] ∧ s = ⟨.QUIT, b⟩ ∧ out = [.stopTicker]) := by
  refine ⟨rfl, rfl, rfl, rfl, step_quit b, fun evs s out h => run_quit h, ?_⟩
  intro p evs s out hp h
  obtain ⟨s1, o1, o2, h1, h2, rfl⟩ := run_cons_inv h
  have h1' : s1 = ⟨.QUIT, b⟩ ∧ o1 = [.stopTicker] := by
    rcases hp with rfl | rfl <;>
      simp only [step, Option.some.injEq, Prod.mk.injEq] at h1 <;>
      exact ⟨h1.1.symm, h1.2.symm⟩
  obtain ⟨rfl, rfl⟩ := h1'
  obtain ⟨rfl, rfl, rfl⟩ := run_quit h2
  exact ⟨rfl, rfl, rfl⟩

/-- C12 at a concrete buffer: the queue ends while `a:1|kv` is buffered. -/
theorem end_of_stream_is_terminal_witness :
    run ⟨.STREAM, "a:1|kv\n"⟩ [.closed] = some (⟨.QUIT, "a:1|kv\n"⟩, [.stopTicker]) ∧
    ([] : List Event) = [] ∧ (⟨.QUIT, "a:1|kv\n"⟩ : Batcher) = ⟨.QUIT, "a:1|kv\n"⟩ ∧
      [Effect.stopTicker] = [.stopTicker] :=
  have hrun : run ⟨.STREAM, "a:1|kv\n"⟩ [.closed] =
      some (⟨.QUIT, "a:1|kv\n"⟩, [.stopTicker]) := by decide
  ⟨hrun, (end_of_stream_is_terminal "a:1|kv\n").2.2.2.2.2.2 .STREAM [] _ _ (Or.inl rfl) hrun⟩

/-! ## The two steps of the streaming loop -/

/-- C15: the step of the streaming loop on a line `m` with buffer `b`, the write
succeeding.  If `len m + len b > 1400`, the one effect is the write of the
payload `b` and the new buffer is exactly `m`; if `len m + len b ≤ 1400`, the
exact fit included, there is no effect and the new buffer is `b` followed by
`m`. -/
theorem line_step (b m : String) :
    (len m + len b > 1400 →
      step ⟨.STREAM, b⟩ (.metric m true) = some (⟨.STREAM, m⟩, [.write b true])) ∧
    (len m + len b ≤ 1400 →
      step ⟨.STREAM, b⟩ (.metric m true) = some (⟨.STREAM, b ++ m⟩, [])) :=
  ⟨fun h => step_line_overflow_ok b m h, fun h => step_line_fits b m true h⟩

/-- C15 on three lines of 500 bytes: after two lines the buffer holds 1000
bytes and nothing is written; the third line writes that packet of 1000 bytes
and leaves a buffer holding the third line alone.  A line of 400 bytes on a
buffer of 1000 is the exact fit and is appended. -/
theorem line_step_witness :
    run Batcher.fresh [.metric (sampleLine 500) true, .metric (sampleLine 500) true] =
      some (⟨.STREAM, sampleLine 500 ++ sampleLine 500⟩, []) ∧
    len (sampleLine 500 ++ sampleLine 500) = 1000 ∧
    step ⟨.STREAM, sampleLine 500 ++ sampleLine 500⟩ (.metric (sampleLine 500) true) =
      some (⟨.STREAM, sampleLine 500⟩, [.write (sampleLine 500 ++ sampleLine 500) true]) ∧
    step ⟨.STREAM, sampleLine 500 ++ sampleLine 500⟩ (.metric (sampleLine 400) true) =
      some (⟨.STREAM, sampleLine 500 ++ sampleLine 500 ++ sampleLine 400⟩, []) :=
  have h1 : len (sampleLine 500) + len "" ≤ 1400 := by
    rw [len_sampleLine, len_empty]; decide
  have h2 : len (sampleLine 500) + len (sampleLine 500) ≤ 1400 := by
    rw [len_sampleLine]; decide
  have h3 : len (sampleLine 500) + len (sampleLine 500 ++ sampleLine 500) > 1400 := by
    rw [len_append, len_sampleLine]; decide
  have h4 : len (sampleLine 400) + len (sampleLine 500 ++ sampleLine 500) ≤ 1400 := by
    rw [len_append, len_sampleLine, len_sampleLine]
  ⟨run_cons_some ((line_step "" (sampleLine 500)).2 h1)
      (run_cons_some ((line_step (sampleLine 500) (sampleLine 500)).2 h2) rfl),
    by rw [len_append, len_sampleLine],
    (line_step (sampleLine 500 ++ sampleLine 500) (sampleLine 500)).1 h3,
    (line_step (sampleLine 500 ++ sampleLine 500) (sampleLine 400)).2 h4⟩

/-- C16: the step of the streaming loop on a tick with buffer `b`, whatever the
outcome `wok` a write would have.  If `b` is empty the step has no effect and
leaves the state as it is.  If `b` is not empty the step makes exactly one
write, of the payload `b`, and no other write, and the buffer is empty
afterwards; the loop goes on when the write succeeded and the waiting loop is
entered when it failed. -/
theorem tick_step (b : String) (wok : Bool) :
    (len b = 0 → step ⟨.STREAM, b⟩ (.tick wok) = some (⟨.STREAM, b⟩, [])) ∧
    (len b ≠ 0 → ∃ (s : Batcher) (out : List Effect),
      step ⟨.STREAM, b⟩ (.tick wok) = some (s, out) ∧
      writes out = [b] ∧ s.buf = "" ∧
      (wok = true → s = ⟨.STREAM, ""⟩ ∧ out = [.write b true]) ∧
      (wok = false → s.phase = .WAIT ∧ out.head? = some (.write b false))) := by
  refine ⟨fun h => step_tick_empty b wok h, fun h => ?_⟩
  cases wok with
  | true => exact ⟨_, _, step_tick_ok b h, rfl, rfl, fun _ => ⟨rfl, rfl⟩, fun h => nomatch h⟩
  | false =>
    exact ⟨_, _, step_tick_fail b h, rfl, rfl, (fun h => nomatch h), fun _ => ⟨rfl, rfl⟩⟩

/-- C16 on the empty buffer and on the buffer `a:1|kv`. -/
theorem tick_step_witness :
    step ⟨.STREAM, ""⟩ (.tick true) = some (⟨.STREAM, ""⟩, []) ∧
    ∃ (s : Batcher) (out : List Effect),
      step ⟨.STREAM, "a:1|kv\n"⟩ (.tick false) = some (s, out) ∧
      writes out = ["a:1|kv\n"] ∧ s.buf = "" ∧
      (false = true → s = ⟨.STREAM, ""⟩ ∧ out = [.write "a:1|kv\n" true]) ∧
      (false = false → s.phase = .WAIT ∧ out.head? = some (.write "a:1|kv\n" false)) :=
  ⟨(tick_step "" true).1 rfl, (tick_step "a:1|kv\n" false).2 (by decide)⟩

/-! ## Losses: a failed forced flush, the end of the queue -/

/-- C20: a line `m` received in the streaming loop with buffer `b`, where
`len m + len b > 1400` and the forced write fails.  The step writes the payload
`b` (not `m`), logs, and enters the waiting loop with an empty buffer: `m` is
not appended.  Whatever events follow, every payload written later is a
concatenation of consecutive lines received after `m`, the buffer at every later
point is a concatenation of the last lines received after `m`, and any step
that enters the streaming loop from outside it enters with an empty buffer. -/
theorem failed_forced_flush_loses_line (b m : String)
    (hover : len m + len b > statsdMaxLen) :
    step ⟨.STREAM, b⟩ (.metric m false) =
      some (⟨.WAIT, ""⟩, [.write b false, .log "[ERR] Error writing to statsd! Err: %s"]) ∧
    ∀ (evs : List Event) (s : Batcher) (out : List Effect),
      run ⟨.STREAM, b⟩ (.metric m false :: evs) = some (s, out) →
      ∃ out2, out = .write b false :: .log "[ERR] Error writing to statsd! Err: %s" :: out2 ∧
        writes out = b :: writes out2 ∧
        (∀ p ∈ writes out2, ∃ seg, seg <:+: received evs ∧ p = concat seg) ∧
        (∃ pend, pend <:+ received evs ∧ s.buf = concat pend) ∧
        (∀ (e2 : Event) (s2 : Batcher) (o2 : List Effect), s.phase ≠ .STREAM →
          step s e2 = some (s2, o2) → s2.phase = .STREAM → s2.buf = "") := by
  have hstep := step_line_overflow_fail b m hover
  refine ⟨hstep, ?_⟩
  intro evs s out hrun
  obtain ⟨s1, o1, o2, h1, h2, rfl⟩ := run_cons_inv hrun
  rw [hstep] at h1
  simp only [Option.some.injEq, Prod.mk.injEq] at h1
  obtain ⟨rfl, rfl⟩ := h1
  obtain ⟨hw, pend2, hsuf, hb2, hp2⟩ :=
    run_pending evs ⟨.WAIT, ""⟩ s o2 [] rfl (fun _ => rfl) h2
  refine ⟨o2, rfl, rfl, by simpa using hw, ⟨pend2, by simpa using hsuf, hb2⟩, ?_⟩
  intro e2 s2 o3 hne hstep2 hin
  obtain ⟨hc, hbuf⟩ := step_into_stream hne hstep2 hin
  rw [hbuf, hb2, hp2 (Or.inl hc)]
  rfl

/-- C20 at a concrete run: `b:2|kv` arrives on a buffer of 1400 bytes and the
forced write fails; after the cooldown, a dial and a new line `c:3|kv`, a tick
writes `c:3|kv` alone. -/
theorem failed_forced_flush_loses_line_witness :
    len "b:2|kv\n" + len (sampleLine 1400) > statsdMaxLen ∧
    step ⟨.STREAM, sampleLine 1400⟩ (.metric "b:2|kv\n" false) =
      some (⟨.WAIT, ""⟩, [.write (sampleLine 1400) false,
        .log "[ERR] Error writing to statsd! Err: %s"]) ∧
    run ⟨.WAIT, ""⟩ [.waited, .dialed true, .metric "c:3|kv\n" true, .tick true] =
      some (⟨.STREAM, ""⟩, [.dial true, .write "c:3|kv\n" true]) :=
  have hover : len "b:2|kv\n" + len (sampleLine 1400) > statsdMaxLen := by
    rw [len_sampleLine]; decide
  ⟨hover, (failed_forced_flush_loses_line (sampleLine 1400) "b:2|kv\n" hover).1, by decide⟩

theorem dials_append (a b : List Effect) : dials (a ++ b) = dials a + dials b := by
  induction a with
  | nil => simp [dials]
  | cons x xs ih =>
    cases x <;> simp [dials, ih]
    omega

theorem dials_map_write (groups : List (List String)) :
    dials (groups.map (fun g => Effect.write (concat g) true)) = 0 := by
  induction groups with
  | nil => rfl
  | cons g gs ih => simpa [dials] using ih

/-- C13 as stated fails: a line is received in the streaming loop, then the
queue ends; the batcher stops with the line still in its buffer and nothing
written. -/
theorem close_does_not_flush :
    run Batcher.fresh [.metric "a:1|kv\n" true, .closed] =
      some (⟨.QUIT, "a:1|kv\n"⟩, [.stopTicker]) ∧
    received [.metric "a:1|kv\n" true, .closed] = ["a:1|kv\n"] ∧
    writes [Effect.stopTicker] = [] := by
  decide

/-- C13, as the source has it: for every sequence of lines and ticks received in
the streaming loop with the writes succeeding, followed by the end of the
queue, the run is defined and ends in the final state; the lines received split
into groups of consecutive lines and a rest, such that the effects are one
successful write per group, in order, each payload the concatenation of its
group, then the stop of the ticker; the rest, the lines in the buffer when the
queue ended, stays in the buffer unwritten; no dial is attempted. -/
theorem close_keeps_partial_buffer (ins : List Input) :
    ∃ (s : Batcher) (out : List Effect) (groups : List (List String)) (rest : List String),
      run Batcher.fresh (ins.map Input.ok ++ [.closed]) = some (s, out) ∧
      s = ⟨.QUIT, concat rest⟩ ∧
      received (ins.map Input.ok) = groups.flatten ++ rest ∧
      out = groups.map (fun g => Effect.write (concat g) true) ++ [.stopTicker] ∧
      writes out = groups.map concat ∧
      dials out = 0 := by
  obtain ⟨s, out, groups, rest, hrun, hph, hsplit, hout, hbuf⟩ :=
    run_ok_partition ins "" [] rfl
  obtain ⟨ph, buf⟩ := s
  simp only at hph hbuf
  subst hph
  have hclose : run ⟨.STREAM, buf⟩ [.closed] = some (⟨.QUIT, buf⟩, [.stopTicker]) := rfl
  refine ⟨⟨.QUIT, buf⟩, out ++ [.stopTicker], groups, rest,
    run_append_some _ _ _ _ _ _ _ hrun hclose, by rw [hbuf], by simpa using hsplit,
    by rw [hout], ?_, ?_⟩
  · rw [writes_append, hout, writes_map_write]
    simp [writes]
  · rw [dials_append, hout, dials_map_write]
    rfl

/-! ## Connect attempts and the cooldown -/

/-- A run that reaches a return of `net.Dial` after the events `mid`, none of
them such a return: started at `CONNECT` it has `mid` empty, started in one of
the two loops it has exactly one cooldown-elapsed event in `mid`, and it cannot
start in the final state. -/
theorem until_next_dial : ∀ (mid : List Event) (s : Batcher) (ok : Bool) (post : List Event)
    (s2 : Batcher) (out : List Effect),
    run s (mid ++ .dialed ok :: post) = some (s2, out) →
    (∀ e ∈ mid, ∀ a, e ≠ Event.dialed a) →
    (s.phase = .CONNECT → mid = []) ∧
    (s.phase = .STREAM ∨ s.phase = .WAIT → mid.count .waited = 1) ∧
    s.phase ≠ .QUIT
  | [], s, ok, post, s2, out, h, _ => by
    obtain ⟨s1, o1, o2, h1, _, _⟩ := run_cons_inv h
    obtain ⟨ph, b⟩ := s
    cases ph <;> simp [step] at h1 ⊢
  | e :: mid, s, ok, post, s2, out, h, hnd => by
    rw [List.cons_append] at h
    obtain ⟨s1, o1, o2, h1, h2, _⟩ := run_cons_inv h
    have ih := until_next_dial mid s1 ok post s2 o2 h2
      (fun e he => hnd e (List.mem_cons_of_mem _ he))
    have he := hnd e (List.mem_cons_self _ _)
    obtain ⟨ph, b⟩ := s
    cases ph <;> cases e <;> simp only [step] at h1 <;> (try split_ifs at h1) <;>
      simp only [Option.some.injEq, Prod.mk.injEq, reduceCtorEq] at h1 <;>
      obtain ⟨rfl, rfl⟩ := h1 <;>
      simp_all [List.count_cons]

/-- C17: a failed dial at `CONNECT` logs and enters the waiting loop, with no
write and no further dial; no step of the waiting loop dials or writes, and the
step that takes it back to `CONNECT` is the one of the cooldown-elapsed event
(the return of `wait`).  In every run, between two consecutive returns of
`net.Dial` (the events `mid` between them holding no such return) there is
exactly one cooldown-elapsed event. -/
theorem connect_failure_waits_for_cooldown (b : String) :
    step ⟨.CONNECT, b⟩ (.dialed false) =
      some (⟨.WAIT, b⟩, [.dial false, .log "[ERR] Error connecting to statsd! Err: %s"]) ∧
    writes [Effect.dial false, .log "[ERR] Error connecting to statsd! Err: %s"] = [] ∧
    dials [Effect.dial false, .log "[ERR] Error connecting to statsd! Err: %s"] = 1 ∧
    (∀ (e : Event) (s1 : Batcher) (o1 : List Effect), step ⟨.WAIT, b⟩ e = some (s1, o1) →
      dials o1 = 0 ∧ writes o1 = [] ∧ s1.phase ≠ .STREAM ∧ (s1.phase = .CONNECT → e = .waited)) ∧
    (∀ (s0 : Batcher) (pre : List Event) (a : Bool) (mid : List Event) (ok : Bool)
      (post : List Event) (s : Batcher) (out : List Effect),
      run s0 (pre ++ .dialed a :: (mid ++ .dialed ok :: post)) = some (s, out) →
      (∀ e ∈ mid, ∀ c, e ≠ Event.dialed c) →
      mid.count .waited = 1) := by
  refine ⟨rfl, rfl, rfl, ?_, ?_⟩
  · intro e s1 o1 hstep
    cases e <;> simp only [step, Option.some.injEq, Prod.mk.injEq, reduceCtorEq] at hstep <;>
      obtain ⟨rfl, rfl⟩ := hstep <;> simp [writes, dials]
  · intro s0 pre a mid ok post s out hrun hnd
    obtain ⟨s1, o1, o2, _, h2, _⟩ := run_append_inv _ _ _ _ _ hrun
    obtain ⟨s3, o3, o4, h3, h4, _⟩ := run_cons_inv h2
    have hph : s3.phase = .STREAM ∨ s3.phase = .WAIT := by
      obtain ⟨ph, b1⟩ := s1
      cases ph <;> simp only [step] at h3 <;> (try split_ifs at h3) <;>
        simp only [Option.some.injEq, Prod.mk.injEq, reduceCtorEq] at h3 <;>
        obtain ⟨rfl, rfl⟩ := h3 <;> simp
    exact (until_next_dial mid s3 ok post s o4 h4 hnd).2.1 hph

/-- C17 at a concrete run: a failed dial, a line dropped while waiting, the
cooldown, and the next dial. -/
theorem connect_failure_waits_for_cooldown_witness :
    run Batcher.init ([] ++ .dialed false ::
        ([.metric "a:1|kv\n" true, .waited] ++ .dialed true :: [])) =
      some (⟨.STREAM, ""⟩, [.dial false, .log "[ERR] Error connecting to statsd! Err: %s",
        .dial true]) ∧
    [Event.metric "a:1|kv\n" true, .waited].count .waited = 1 :=
  have hrun : run Batcher.init ([] ++ .dialed false ::
        ([.metric "a:1|kv\n" true, .waited] ++ .dialed true :: [])) =
      some (⟨.STREAM, ""⟩, [.dial false, .log "[ERR] Error connecting to statsd! Err: %s",
        .dial true]) := by decide
  ⟨hrun, (connect_failure_waits_for_cooldown "").2.2.2.2 Batcher.init [] false
    [.metric "a:1|kv\n" true, .waited] true [] _ _ hrun (by simp)⟩

/-! ## Sockets -/

theorem socketsOpened_append (a b : List Effect) :
    socketsOpened (a ++ b) = socketsOpened a + socketsOpened b := by
  induction a with
  | nil => simp [socketsOpened]
  | cons x xs ih =>
    cases x with
    | dial ok =>
      cases ok <;> simp [socketsOpened, ih]
      omega
    | _ => simp [socketsOpened, ih]

theorem socketsClosed_append (a b : List Effect) :
    socketsClosed (a ++ b) = socketsClosed a + socketsClosed b := by
  induction a with
  | nil => simp [socketsClosed]
  | cons x xs ih =>
    cases x <;> simp [socketsClosed, ih]
    omega

theorem writesFailed_append (a b : List Effect) :
    writesFailed (a ++ b) = writesFailed a + writesFailed b := by
  induction a with
  | nil => simp [writesFailed]
  | cons x xs ih =>
    cases x with
    | write p ok =>
      cases ok <;> simp [writesFailed, ih]
      omega
    | _ => simp [writesFailed, ih]

/-- One step, with `k` sockets in use before it (one in the streaming loop,
none at `CONNECT` and in the waiting loop): no socket is closed, and the number
in use after it, `k` plus the sockets opened minus the writes failed, is again
one in the streaming loop, none at `CONNECT` and in the waiting loop, and at
most one in the final state. -/
theorem step_sockets {s s1 : Batcher} {e : Event} {o1 : List Effect} {k : Nat}
    (hs : s.phase = .STREAM → k = 1) (hw : s.phase = .CONNECT ∨ s.phase = .WAIT → k = 0)
    (h : step s e = some (s1, o1)) :
    socketsClosed o1 = 0 ∧
    ∃ k1, k1 + writesFailed o1 = k + socketsOpened o1 ∧ k1 ≤ 1 ∧
      (s1.phase = .STREAM → k1 = 1) ∧ (s1.phase = .CONNECT ∨ s1.phase = .WAIT → k1 = 0) := by
  obtain ⟨ph, b⟩ := s
  cases ph <;> cases e <;> simp only [step] at h <;> (try split_ifs at h) <;>
    simp only [Option.some.injEq, Prod.mk.injEq, reduceCtorEq] at h <;>
    obtain ⟨rfl, rfl⟩ := h <;>
    simp_all [socketsClosed, socketsOpened, writesFailed]

theorem run_sockets : ∀ (evs : List Event) (s s2 : Batcher) (out : List Effect) (k : Nat),
    (s.phase = .STREAM → k = 1) → (s.phase = .CONNECT ∨ s.phase = .WAIT → k = 0) → k ≤ 1 →
    run s evs = some (s2, out) →
    socketsClosed out = 0 ∧
    ∃ k2, k2 + writesFailed out = k + socketsOpened out ∧ k2 ≤ 1 ∧
      (s2.phase = .STREAM → k2 = 1) ∧ (s2.phase = .CONNECT ∨ s2.phase = .WAIT → k2 = 0)
  | [], s, s2, out, k, hs, hw, hk, h => by
    simp only [run, Option.some.injEq, Prod.mk.injEq] at h
    obtain ⟨rfl, rfl⟩ := h
    exact ⟨rfl, k, rfl, hk, hs, hw⟩
  | e :: es, s, s2, out, k, hs, hw, hk, h => by
    obtain ⟨s1, o1, o2, h1, h2, rfl⟩ := run_cons_inv h
    obtain ⟨hc1, k1, hk1, hle1, hs1, hw1⟩ := step_sockets hs hw h1
    obtain ⟨hc2, k2, hk2, hle2, hs2, hw2⟩ := run_sockets es s1 s2 o2 k1 hs1 hw1 hle1 h2
    refine ⟨by rw [socketsClosed_append, hc1, hc2], k2, ?_, hle2, hs2, hw2⟩
    rw [writesFailed_append, socketsOpened_append]
    omega

/-- The effects of one step, with `k` sockets in use before it: a write among
them is made with exactly one socket in use, a dial with none. -/
theorem step_effect_positions {s s1 : Batcher} {e : Event} {o1 : List Effect} {k : Nat}
    (hs : s.phase = .STREAM → k = 1) (hw : s.phase = .CONNECT ∨ s.phase = .WAIT → k = 0)
    (h : step s e = some (s1, o1)) (pre : List Effect) (x : Effect) (post : List Effect)
    (hsplit : pre ++ x :: post = o1) :
    ((∃ w ok, x = .write w ok) → k + socketsOpened pre = writesFailed pre + 1) ∧
    ((∃ a, x = .dial a) → k + socketsOpened pre = writesFailed pre) := by
  obtain ⟨ph, b⟩ := s
  cases ph <;> cases e <;> simp only [step] at h <;> (try split_ifs at h) <;>
    simp only [Option.some.injEq, Prod.mk.injEq, reduceCtorEq] at h <;>
    obtain ⟨rfl, rfl⟩ := h <;>
    rcases pre with _ | ⟨p, _ | ⟨q, pre⟩⟩ <;>
    simp_all [socketsOpened, writesFailed]

/-- Along a run started with `k` sockets in use (one in the streaming loop, none
at `CONNECT` and in the waiting loop): every write is made with exactly one
socket in use, every dial with none. -/
theorem run_effect_positions : ∀ (evs : List Event) (s s2 : Batcher) (out : List Effect)
    (k : Nat),
    (s.phase = .STREAM → k = 1) → (s.phase = .CONNECT ∨ s.phase = .WAIT → k = 0) →
    run s evs = some (s2, out) →
    ∀ (pre : List Effect) (x : Effect) (post : List Effect), out = pre ++ x :: post →
      ((∃ w ok, x = .write w ok) → k + socketsOpened pre = writesFailed pre + 1) ∧
      ((∃ a, x = .dial a) → k + socketsOpened pre = writesFailed pre)
  | [], s, s2, out, k, _, _, h => by
    simp only [run, Option.some.injEq, Prod.mk.injEq] at h
    obtain ⟨_, rfl⟩ := h
    intro pre x post hsplit
    simp at hsplit
  | e :: es, s, s2, out, k, hs, hw, h => by
    obtain ⟨s1, o1, o2, h1, h2, rfl⟩ := run_cons_inv h
    obtain ⟨_, k1, hk1, _, hs1, hw1⟩ := step_sockets hs hw h1
    intro pre x post hsplit
    rcases List.append_eq_append_iff.mp hsplit with ⟨a, hpre, ho2⟩ | ⟨c, ho1, hpost⟩
    · have ih := run_effect_positions es s1 s2 o2 k1 hs1 hw1 h2 a x post ho2
      rw [hpre, socketsOpened_append, writesFailed_append]
      constructor
      · intro hx
        have := ih.1 hx
        omega
      · intro hx
        have := ih.2 hx
        omega
    · cases c with
      | nil =>
        simp only [List.append_nil] at ho1
        simp only [List.nil_append] at hpost
        have ih := run_effect_positions es s1 s2 o2 k1 hs1 hw1 h2 [] x post hpost.symm
        simp only [socketsOpened, writesFailed] at ih
        rw [← ho1]
        constructor
        · intro hx
          have := ih.1 hx
          omega
        · intro hx
          have := ih.2 hx
          omega
      | cons y c =>
        simp only [List.cons_append, List.cons.injEq] at hpost
        obtain ⟨rfl, _⟩ := hpost
        exact step_effect_positions hs hw h1 pre x c ho1.symm

/-- C14 as stated fails: after a dial, a failed flush, the cooldown and a second
dial, two sockets have been opened and none released; and when the queue ends
after a dial, the one socket opened is not released either. -/
theorem sockets_are_not_released :
    run Batcher.init [.dialed true, .metric "a:1|kv\n" true, .tick false, .waited,
        .dialed true] =
      some (⟨.STREAM, ""⟩, [.dial true, .write "a:1|kv\n" false,
        .log "[ERR] Error flushing to statsd! Err: %s", .dial true]) ∧
    socketsOpened [.dial true, .write "a:1|kv\n" false,
        .log "[ERR] Error flushing to statsd! Err: %s", .dial true] -
      socketsClosed [.dial true, .write "a:1|kv\n" false,
        .log "[ERR] Error flushing to statsd! Err: %s", .dial true] = 2 ∧
    run Batcher.init [.dialed true, .closed] = some (⟨.QUIT, ""⟩, [.dial true, .stopTicker]) ∧
    socketsOpened [.dial true, .stopTicker] - socketsClosed [.dial true, .stopTicker] = 1 := by
  decide

/-- C14, as the source has it: tracking the sockets opened by the successful
dials, in every run of `flushMetrics` from its start no socket is ever closed,
and the sockets in use, those opened less those given up after a failed write,
number at most one at every step: exactly one in the streaming loop, none at
`CONNECT` and in the waiting loop.  Every write is made while exactly one
socket is in use, and every dial while none is; so after a write has failed no
further write is made before a new socket has been opened: the socket whose
write failed is given up before the next connect attempt and never written to
again. -/
theorem at_most_one_socket_in_use (evs : List Event) (s : Batcher) (out : List Effect)
    (hrun : run Batcher.init evs = some (s, out)) :
    socketsClosed out = 0 ∧
    socketsOpened out ≤ writesFailed out + 1 ∧
    (s.phase = .STREAM → socketsOpened out = writesFailed out + 1) ∧
    (s.phase = .CONNECT ∨ s.phase = .WAIT → socketsOpened out = writesFailed out) ∧
    (∀ (pre : List Effect) (w : String) (ok : Bool) (post : List Effect),
      out = pre ++ .write w ok :: post → socketsOpened pre = writesFailed pre + 1) ∧
    (∀ (pre : List Effect) (a : Bool) (post : List Effect),
      out = pre ++ .dial a :: post → socketsOpened pre = writesFailed pre) ∧
    (∀ (pre : List Effect) (w : String) (mid : List Effect) (w2 : String) (ok2 : Bool)
      (post : List Effect),
      out = pre ++ .write w false :: (mid ++ .write w2 ok2 :: post) →
      1 ≤ socketsOpened mid) := by
  obtain ⟨hc, k2, hk2, hle, hs, hw⟩ :=
    run_sockets evs Batcher.init s out 0 (fun h => nomatch h) (fun _ => rfl) (Nat.zero_le _) hrun
  have hpos := run_effect_positions evs Batcher.init s out 0 (fun h => nomatch h)
    (fun _ => rfl) hrun
  have hwrite : ∀ (pre : List Effect) (w : String) (ok : Bool) (post : List Effect),
      out = pre ++ .write w ok :: post → socketsOpened pre = writesFailed pre + 1 := by
    intro pre w ok post hsplit
    have h := (hpos pre _ post hsplit).1 ⟨w, ok, rfl⟩
    omega
  refine ⟨hc, by omega, fun h => ?_, fun h => ?_, hwrite, ?_, ?_⟩
  · have := hs h
    omega
  · have := hw h
    omega
  · intro pre a post hsplit
    have h := (hpos pre _ post hsplit).2 ⟨a, rfl⟩
    omega
  · intro pre w mid w2 ok2 post hsplit
    have h1 := hwrite pre w false _ hsplit
    have h2 := hwrite (pre ++ .write w false :: mid) w2 ok2 post (by rw [hsplit]; simp)
    rw [socketsOpened_append, writesFailed_append] at h2
    simp only [socketsOpened, writesFailed] at h2
    omega

/-- C14 as amended, on the run with a failed flush and a second dial: the failed
write is made with one socket in use, the second dial with none. -/
theorem at_most_one_socket_in_use_witness :
    run Batcher.init [.dialed true, .metric "a:1|kv\n" true, .tick false, .waited,
        .dialed true] =
      some (⟨.STREAM, ""⟩, [.dial true, .write "a:1|kv\n" false,
        .log "[ERR] Error flushing to statsd! Err: %s", .dial true]) ∧
    socketsClosed [.dial true, .write "a:1|kv\n" false,
        .log "[ERR] Error flushing to statsd! Err: %s", .dial true] = 0 ∧
    socketsOpened [.dial true, .write "a:1|kv\n" false,
        .log "[ERR] Error flushing to statsd! Err: %s", .dial true] ≤
      writesFailed [.dial true, .write "a:1|kv\n" false,
        .log "[ERR] Error flushing to statsd! Err: %s", .dial true] + 1 ∧
    socketsOpened [.dial true] = writesFailed [.dial true] + 1 ∧
    socketsOpened [.dial true, .write "a:1|kv\n" false,
        .log "[ERR] Error flushing to statsd! Err: %s"] =
      writesFailed [.dial true, .write "a:1|kv\n" false,
        .log "[ERR] Error flushing to statsd! Err: %s"] :=
  have hrun : run Batcher.init [.dialed true, .metric "a:1|kv\n" true, .tick false, .waited,
        .dialed true] =
      some (⟨.STREAM, ""⟩, [.dial true, .write "a:1|kv\n" false,
        .log "[ERR] Error flushing to statsd! Err: %s", .dial true]) := by decide
  ⟨hrun, (at_most_one_socket_in_use _ _ _ hrun).1, (at_most_one_socket_in_use _ _ _ hrun).2.1,
    (at_most_one_socket_in_use _ _ _ hrun).2.2.2.2.1 [.dial true] "a:1|kv\n" false
      [.log "[ERR] Error flushing to statsd! Err: %s", .dial true] rfl,
    (at_most_one_socket_in_use _ _ _ hrun).2.2.2.2.2.1
      [.dial true, .write "a:1|kv\n" false, .log "[ERR] Error flushing to statsd! Err: %s"]
      true [] rfl⟩

/-! ## Empty payloads -/

/-- When every line received is at most 1400 bytes long, no step writes an
empty payload: a forced flush then finds a buffer that is not empty, and a tick
skips an empty buffer. -/
theorem step_writes_nonempty {s s1 : Batcher} {e : Event} {o1 : List Effect}
    (he : ∀ m wok, e = .metric m wok → len m ≤ statsdMaxLen)
    (h : step s e = some (s1, o1)) :
    ∀ p ∈ writes o1, len p ≠ 0 := by
  obtain ⟨ph, b⟩ := s
  cases ph <;> cases e <;> simp only [step] at h <;> (try split_ifs at h) <;>
    simp only [Option.some.injEq, Prod.mk.injEq, reduceCtorEq] at h <;>
    obtain ⟨rfl, rfl⟩ := h <;>
    simp only [writes, List.mem_cons, List.mem_nil_iff, or_false, forall_eq, false_implies,
      implies_true] <;>
    first
      | assumption
      | exact fun h0 => by
          have hm := he _ _ rfl
          omega

theorem run_writes_nonempty : ∀ (evs : List Event) (s s2 : Batcher) (out : List Effect),
    (∀ m wok, Event.metric m wok ∈ evs → len m ≤ statsdMaxLen) →
    run s evs = some (s2, out) →
    ∀ p ∈ writes out, len p ≠ 0
  | [], s, s2, out, _, h => by
    simp only [run, Option.some.injEq, Prod.mk.injEq] at h
    obtain ⟨_, rfl⟩ := h
    simp [writes]
  | e :: es, s, s2, out, hl, h => by
    obtain ⟨s1, o1, o2, h1, h2, rfl⟩ := run_cons_inv h
    intro p hp
    rw [writes_append, List.mem_append] at hp
    cases hp with
    | inl hp => exact step_writes_nonempty (fun m wok hm => hl m wok (by simp [hm])) h1 p hp
    | inr hp =>
      exact run_writes_nonempty es s1 s2 o2
        (fun m wok hm => hl m wok (List.mem_cons_of_mem _ hm)) h2 p hp

/-- C18, the code on a line of 1401 bytes received in the freshly connected
state: the forced flush finds `len m + 0 > 1400` and passes the empty buffer to
the socket write, so the one payload written is empty. -/
theorem oversized_line_writes_empty_payload :
    run Batcher.fresh [.metric (sampleLine 1401) true] =
      some (⟨.STREAM, sampleLine 1401⟩, [.write "" true]) ∧
    writes [Effect.write "" true] = [""] ∧
    len "" = 0 :=
  ⟨run_cons_some
      (step_line_overflow_ok "" (sampleLine 1401) (by rw [len_sampleLine, len_empty]; decide))
      rfl,
    rfl, rfl⟩

/-! ## The keys of a Timer -/

theorem takeWhile_before_colon (l x : List Char) :
    (l ++ ':' :: x).takeWhile (fun c => c != ':') = l.takeWhile (fun c => c != ':') := by
  induction l with
  | nil => simp [List.takeWhile]
  | cons c l ih =>
    by_cases hc : c = ':'
    · simp [List.takeWhile, hc]
    · simp [List.takeWhile, hc, ih]

/-- The key of a line does not depend on what follows its first colon. -/
theorem bucketKey_colon (a rest : String) : bucketKey (a ++ ":" ++ rest) = bucketKey a := by
  apply String.ext
  have h : (a ++ ":" ++ rest).data = a.data ++ ':' :: rest.data := by
    simp [String.data_append]
  simp only [bucketKey, h, takeWhile_before_colon]

/-- C19, the code on the Timer of the scenario, for every metric name: the
fourth line (the mean of the histogram values) and the fourteenth line (the
mean rate) are both emitted under the key of `name.mean`, so the keys of the 14
lines are not pairwise distinct; for the name `timer` that key is
`timer.mean`. -/
theorem timer_mean_key_twice (φ : FloatText) (name : String) :
    ∃ (lines : List String) (l4 l14 : String),
      metricLines φ name (.timer sampleTimer) = some lines ∧
      lines[3]? = some l4 ∧ lines[13]? = some l14 ∧
      bucketKey l4 = bucketKey (name ++ ".mean") ∧
      bucketKey l14 = bucketKey (name ++ ".mean") ∧
      ¬ (lines.map bucketKey).Nodup ∧
      bucketKey ("timer" ++ ".mean") = "timer.mean" := by
  have h := timer_lines φ name sampleTimer 2 3 8 9 9 [] rfl
  have e4 : bucketKey (name ++ ".mean:" ++ φ.verbF sampleTimer.Mean ++ "|kv\n") =
      bucketKey (name ++ ".mean") := by
    have : name ++ ".mean:" ++ φ.verbF sampleTimer.Mean ++ "|kv\n" =
        (name ++ ".mean") ++ ":" ++ (φ.verbF sampleTimer.Mean ++ "|kv\n") := by
      apply String.ext
      simp
    rw [this, bucketKey_colon]
  have e14 : bucketKey (name ++ ".mean:" ++
      ("%!d(float64=" ++ φ.verbV sampleTimer.RateMean ++ ")") ++ "|kv\n") =
      bucketKey (name ++ ".mean") := by
    have : name ++ ".mean:" ++ ("%!d(float64=" ++ φ.verbV sampleTimer.RateMean ++ ")") ++ "|kv\n" =
        (name ++ ".mean") ++ ":" ++
          (("%!d(float64=" ++ φ.verbV sampleTimer.RateMean ++ ")") ++ "|kv\n") := by
      apply String.ext
      simp
    rw [this, bucketKey_colon]
  refine ⟨_, _, _, h, rfl, rfl, e4, e14, ?_, by decide⟩
  intro hnd
  simp only [List.map_cons, List.nodup_cons, List.mem_cons] at hnd
  exact hnd.2.2.2.1 (by
    simp only [e4, e14]
    simp)

end Statsd
